import Mathlib

/-!
Verification of the ECS (entity-component-system) core: a shallow embedding
of the archetype storage engine, the per-component dense numeric column,
the signature registry, the system scheduler and the double-buffered event
bus, together with proofs and refutations of the specified properties.

Sources embedded:
* `core/array_wrapper.py` — `ArrayWrapper.ensure_capacity` / `shrink_to`;
* `ecs/component.py` — `Component.add/remove/update_value`,
  `ComponentRegistry.get_bit/compute_signature`;
* `ecs/world.py` — `Archetype`, `World` and its public operations;
* `core/event.py` — `EventBus.publish_async/process_async`;
* `core/system.py` — the `System` record (priority, enabled, group, name).

Conventions of the embedding:
* Numeric cell values are modelled by `Val`: either the NaN sentinel or an
  integer payload.  The engine only stores, copies and compares cells, so
  the exact float payload is irrelevant; NaN-ness is what matters.
* Python dicts are modelled as insertion-ordered association lists
  (`alookup`, `aset`, `aerase`, `afind_key` mirror `d[k]`, `d[k] = v`,
  `d.pop(k)` and first-match iteration).
* Python exceptions are modelled by returning the (partially mutated)
  state together with `Option String`; `none` means the call returned
  normally.  Exception propagation does not roll back prior mutations,
  exactly as in the source.
-/

namespace ECS

/-- A numeric cell: the NaN sentinel used for absent rows, or a number.
The engine never does arithmetic on stored cells (it only writes, copies
and reads them), so integer payloads suffice. -/
inductive Val where
  | nan : Val
  | num : Int → Val
deriving DecidableEq, Repr

/-- `np.isnan` on a single cell. -/
def Val.isNan : Val → Bool
  | .nan => true
  | .num _ => false

section AssocOps

variable {κ β : Type} [DecidableEq κ]

/-- Python `d.get(k)` / `d[k]` on an insertion-ordered dict. -/
def alookup (k : κ) : List (κ × β) → Option β
  | [] => none
  | (k', v) :: t => if k' = k then some v else alookup k t

/-- Python `d[k] = v`: overwrite in place if the key exists (keeping its
position), otherwise append at the end, as insertion-ordered dicts do. -/
def aset (k : κ) (v : β) : List (κ × β) → List (κ × β)
  | [] => [(k, v)]
  | (k', v') :: t => if k' = k then (k, v) :: t else (k', v') :: aset k v t

/-- Python `d.pop(k)`: drop the (first) entry with key `k`. -/
def aerase (k : κ) : List (κ × β) → List (κ × β)
  | [] => []
  | (k', v') :: t => if k' = k then t else (k', v') :: aerase k t

/-- First key bound to value `v`, in dict iteration order: models
`for ent, pos in d.items(): if pos == v: ... break`. -/
def afind_key [DecidableEq β] (v : β) : List (κ × β) → Option κ
  | [] => none
  | (k', v') :: t => if v' = v then some k' else afind_key v t

/-- The key list of a dict, in iteration order. -/
def akeys (l : List (κ × β)) : List κ := l.map Prod.fst

/-- The value list of a dict, in iteration order. -/
def avals (l : List (κ × β)) : List β := l.map Prod.snd

end AssocOps

/-! ## `ArrayWrapper.ensure_capacity` (core/array_wrapper.py)

```python
current_rows, current_cols = self._array.shape
if min_rows <= current_rows:
    return
new_rows = max(min_rows, current_rows * self.scale_factor)   # scale_factor = 1.5
new_array = np.full((new_rows, current_cols), np.nan, dtype=self._array.dtype)
new_array[:current_rows] = self._array
self.set_array(new_array)
```

When `current_rows * 1.5 > min_rows`, Python's `max` returns the *float*
`current_rows * 1.5`, and `np.full` rejects a float as a shape dimension
(floats do not implement `__index__`), raising `TypeError` before any
state is mutated.  The comparison `current_rows * 1.5 > min_rows` is
encoded in integers as `3 * current_rows > 2 * min_rows`. -/
def ensure_capacity (mat : List (List Val)) (cols minRows : Nat) :
    Except String (List (List Val)) :=
  let currentRows := mat.length
  if minRows ≤ currentRows then .ok mat
  else if 2 * minRows < 3 * currentRows then
    .error "TypeError: float cannot be interpreted as an integer"
  else
    .ok (mat ++ List.replicate (minRows - currentRows) (List.replicate cols Val.nan))

/-! ## Component column (ecs/component.py) -/

/-- The state of one dense component column (`Component` in
ecs/component.py).  `matrix` is the wrapped numpy array of shape
`(capacity, dims)`; `dflt` is the `_default` tuple (zeros of width `dims`
unless the concrete class overrides it). -/
structure Component where
  dims : Nat
  dflt : List Val
  matrix : List (List Val)
  entity_to_index : List (Nat × Nat)
  free_slots : List Nat
  size : Nat
deriving DecidableEq, Repr

/-- `Component.__init__`: `initial_capacity = 3` rows of NaN. -/
def Component.init (dims : Nat) (dflt : List Val) : Component :=
  { dims := dims
    dflt := dflt
    matrix := List.replicate 3 (List.replicate dims Val.nan)
    entity_to_index := []
    free_slots := []
    size := 0 }

/-- `Component.add(entity_id, val)`.  Checks the value width, then reuses
the most recently freed slot (`self.free_slots.pop()` pops the *last*
element) or appends at index `size`, growing the matrix through
`ensure_capacity` when full.  Returns the new state and the raised
exception, if any; a raised exception leaves every field that was not yet
assigned untouched, as in Python. -/
def Component.add (c : Component) (e : Nat) (val? : Option (List Val)) :
    Component × Option String :=
  let val := val?.getD c.dflt
  if val.length ≠ c.dims then (c, some "InvalidDimension") else
  match c.free_slots.getLast? with
  | some idx =>
      if idx < c.matrix.length then
        ({ c with
            matrix := c.matrix.set idx val
            entity_to_index := aset e idx c.entity_to_index
            free_slots := c.free_slots.dropLast
            size := c.size + 1 }, none)
      else
        ({ c with free_slots := c.free_slots.dropLast }, some "IndexError")
  | none =>
      let idx := c.size
      match (if c.matrix.length ≤ idx then ensure_capacity c.matrix c.dims (idx + 1)
             else .ok c.matrix) with
      | .error err => (c, some err)
      | .ok mat =>
          if idx < mat.length then
            ({ c with
                matrix := mat.set idx val
                entity_to_index := aset e idx c.entity_to_index
                size := c.size + 1 }, none)
          else ({ c with matrix := mat }, some "IndexError")

/-- `Component.remove(entity_id)`: silently returns when the entity has no
row; otherwise swap-with-last.  The owner of the last live row is located
by scanning `entity_to_index` *after* popping the removed entity; when no
owner is found the swap is skipped but the slot is still freed and the
size still decremented (the function body contains no raise). -/
def Component.remove (c : Component) (e : Nat) : Component :=
  match alookup e c.entity_to_index with
  | none => c
  | some idx =>
      let m := aerase e c.entity_to_index
      let last := c.size - 1
      if idx = last then
        { c with
            entity_to_index := m
            free_slots := c.free_slots ++ [last]
            size := c.size - 1 }
      else
        match afind_key last m with
        | some swapped =>
            { c with
                matrix := c.matrix.set idx (c.matrix.getD last [])
                entity_to_index := aset swapped idx m
                free_slots := c.free_slots ++ [last]
                size := c.size - 1 }
        | none =>
            { c with
                entity_to_index := m
                free_slots := c.free_slots ++ [last]
                size := c.size - 1 }

/-- `Component.update_value(entity_id, val)`: `NotFound` when the entity
has no row, `InvalidDimension` on width mismatch, else write in place. -/
def Component.update_value (c : Component) (e : Nat) (val : List Val) :
    Component × Option String :=
  match alookup e c.entity_to_index with
  | none => (c, some "NotFound")
  | some idx =>
      if val.length ≠ c.dims then (c, some "InvalidDimension")
      else if idx < c.matrix.length then
        ({ c with matrix := c.matrix.set idx val }, none)
      else (c, some "IndexError")

/-- `Component.get_value(entity_id)`. -/
def Component.get_value (c : Component) (e : Nat) :
    Except String (List Val) :=
  match alookup e c.entity_to_index with
  | none => .error "NotFound"
  | some idx => .ok (c.matrix.getD idx [])

end ECS

namespace ECS

/-! ## Basic dict lemmas -/

theorem alookup_aset_self {κ β : Type} [DecidableEq κ] (k : κ) (v : β) (l : List (κ × β)) :
    alookup k (aset k v l) = some v := by
  induction l with
  | nil => simp [aset, alookup]
  | cons h t ih =>
      obtain ⟨k', v'⟩ := h
      by_cases hk : k' = k
      · simp [aset, alookup, hk]
      · simp [aset, alookup, hk, ih]

/-! ## Concrete example columns -/

/-- A one-dimensional column holding entity 0 at row 0 with value 5:
the result of `Component(D=1)` followed by `add(0, (5,))`. -/
def exColumn1 : Component :=
  { dims := 1
    dflt := [Val.num 0]
    matrix := [[Val.num 5], [Val.nan], [Val.nan]]
    entity_to_index := [(0, 0)]
    free_slots := []
    size := 1 }

theorem exColumn1_eq_trace :
    (Component.init 1 [Val.num 0]).add 0 (some [Val.num 5]) = (exColumn1, none) := by
  decide

/-- A corrupt one-dimensional column violating invariant C1: `size = 2`
but only entity 7 is mapped (at row 0), so the last live row 1 has no
owner. -/
def exColumnBad : Component :=
  { dims := 1
    dflt := [Val.num 0]
    matrix := [[Val.num 5], [Val.nan], [Val.nan]]
    entity_to_index := [(7, 0)]
    free_slots := []
    size := 2 }

/-- The column of `exColumn1` with a free slot at row 1 (as left by
`add(9, (7,)); remove(9)` after a swapless removal). -/
def exColumnFree : Component :=
  { dims := 1
    dflt := [Val.num 0]
    matrix := [[Val.num 5], [Val.num 7], [Val.nan]]
    entity_to_index := [(0, 0)]
    free_slots := [1]
    size := 1 }

/-! ## C1 — `ensure_capacity` growth -/

/-- C1: the claim states that `ensure_capacity(min_rows)` with
`min_rows > capacity` reallocates to `max(min_rows, ⌈capacity·1.5⌉)` rows
and completes without error.  The code computes
`max(min_rows, capacity * 1.5)` with no rounding; whenever the
scale-factor branch wins this value is a Python float and `np.full`
raises `TypeError`.  At the initial capacity 3 the very first growth
request (`min_rows = 4 < 4.5`) therefore raises instead of reallocating
to `max(4, ⌈4.5⌉) = 5` rows; the fourth `add` on a fresh column hits the
same error. -/
theorem c1_ensure_capacity_growth_raises :
    ensure_capacity (List.replicate 3 (List.replicate 2 Val.nan)) 2 4
      = Except.error "TypeError: float cannot be interpreted as an integer"
    ∧ (let col3 :=
        ((((Component.init 2 [Val.num 0, Val.num 0]).add 1
            (some [Val.num 1, Val.num 2])).1.add 2
            (some [Val.num 3, Val.num 4])).1.add 3
            (some [Val.num 5, Val.num 6])).1
       (col3.add 4 (some [Val.num 7, Val.num 8])).2
         = some "TypeError: float cannot be interpreted as an integer") := by
  constructor
  · rfl
  · rfl

/-! ## C2 — `add` on an entity that already has a row -/

/-- C2 counterexample: the claim states that `add(e, v)` for an entity
that is already a key of `entity_to_row` is rejected with `InvalidState`
and leaves the column unchanged.  On `exColumn1` (entity 0 present at
row 0), `add(0, (7,))` returns normally (`None` exception), appends a
second row, remaps entity 0 to row 1 and increments `size` — the old row
0 is left orphaned with its stale value. -/
theorem c2_counterexample :
    alookup 0 exColumn1.entity_to_index = some 0
    ∧ (exColumn1.add 0 (some [Val.num 7])).2 = none
    ∧ (exColumn1.add 0 (some [Val.num 7])).1
        = { dims := 1
            dflt := [Val.num 0]
            matrix := [[Val.num 5], [Val.num 7], [Val.nan]]
            entity_to_index := [(0, 1)]
            free_slots := []
            size := 2 } := by
  refine ⟨rfl, rfl, ?_⟩
  decide

/-- C2 amended: `Component.add` performs no presence check at all.  For
an entity `e` already mapped to row `i`, `add(e, v)` with a well-sized
`v` succeeds: it pops the most recently freed slot (when `free_slots` is
nonempty and in bounds), writes `v` there, remaps `e` to that slot and
increments `size`; the old row `i` keeps its stale contents and is now
referenced by nothing (it is neither remapped nor freed). -/
theorem c2_amended (c : Component) (e i : Nat) (v : List Val)
    (hpres : alookup e c.entity_to_index = some i)
    (hlen : v.length = c.dims)
    (hfree : c.free_slots ≠ [])
    (hbound : ∀ j ∈ c.free_slots, j < c.matrix.length)
    (hi : i ∉ c.free_slots) :
    (c.add e (some v)).2 = none
    ∧ (c.add e (some v)).1.size = c.size + 1
    ∧ alookup e (c.add e (some v)).1.entity_to_index
        = some (c.free_slots.getLast hfree)
    ∧ (c.add e (some v)).1.free_slots = c.free_slots.dropLast
    ∧ (c.add e (some v)).1.matrix.getD i [] = c.matrix.getD i [] := by
  have hlast : c.free_slots.getLast? = some (c.free_slots.getLast hfree) :=
    List.getLast?_eq_getLast c.free_slots hfree
  have hmem : c.free_slots.getLast hfree ∈ c.free_slots := List.getLast_mem hfree
  have hb : c.free_slots.getLast hfree < c.matrix.length := hbound _ hmem
  have hne : c.free_slots.getLast hfree ≠ i := fun h => hi (h ▸ hmem)
  simp only [Component.add, Option.getD_some, hlen, ne_eq, not_true_eq_false,
    if_false, hlast, if_pos hb]
  refine ⟨trivial, trivial, ?_, trivial, ?_⟩
  · exact alookup_aset_self e _ c.entity_to_index
  · simp only [List.getD_eq_getElem?_getD]
    rw [List.getElem?_set_ne hne]

/-- Witness for `c2_amended` at `exColumnFree`: entity 0 present at row
0, free slot 1 available; the double add succeeds and remaps. -/
theorem c2_amended_witness :
    (exColumnFree.add 0 (some [Val.num 9])).2 = none
    ∧ (exColumnFree.add 0 (some [Val.num 9])).1.size = exColumnFree.size + 1
    ∧ alookup 0 (exColumnFree.add 0 (some [Val.num 9])).1.entity_to_index
        = some (exColumnFree.free_slots.getLast (by decide))
    ∧ (exColumnFree.add 0 (some [Val.num 9])).1.free_slots
        = exColumnFree.free_slots.dropLast
    ∧ (exColumnFree.add 0 (some [Val.num 9])).1.matrix.getD 0 []
        = exColumnFree.matrix.getD 0 [] :=
  c2_amended exColumnFree 0 0 [Val.num 9] (by decide) (by decide) (by decide)
    (by decide) (by decide)

/-! ## C6 — swap with a missing last-row owner -/

/-- C6 counterexample: the claim states that `remove(entity)` aborts with
a logic error when the removed row differs from the last live row and no
entity owns the last row.  On `exColumnBad` (entity 7 at row 0, `size` 2,
row 1 unowned) the scenario's guard holds, yet `remove(7)` completes
normally: the swap is skipped, row 1 is pushed to `free_slots` and `size`
is decremented — the method body contains no raise at all. -/
theorem c6_counterexample :
    alookup 7 exColumnBad.entity_to_index = some 0
    ∧ (0 : Nat) ≠ exColumnBad.size - 1
    ∧ afind_key (exColumnBad.size - 1) (aerase 7 exColumnBad.entity_to_index) = none
    ∧ exColumnBad.remove 7
        = { dims := 1
            dflt := [Val.num 0]
            matrix := [[Val.num 5], [Val.nan], [Val.nan]]
            entity_to_index := []
            free_slots := [1]
            size := 1 } := by
  refine ⟨rfl, by decide, rfl, ?_⟩
  decide

/-- C6 amended: when the removed row `i` differs from the last live row
`size - 1` and no entity in the popped mapping owns that last row,
`remove` completes normally, skipping the content swap but still pushing
the last row into `free_slots` and decrementing `size`; the matrix is
untouched. -/
theorem c6_amended (c : Component) (e i : Nat)
    (hpres : alookup e c.entity_to_index = some i)
    (hne : i ≠ c.size - 1)
    (hnoowner : afind_key (c.size - 1) (aerase e c.entity_to_index) = none) :
    c.remove e
      = { c with
          entity_to_index := aerase e c.entity_to_index
          free_slots := c.free_slots ++ [c.size - 1]
          size := c.size - 1 } := by
  simp only [Component.remove, hpres, if_neg hne, hnoowner]

/-- Witness for `c6_amended` at `exColumnBad`. -/
theorem c6_amended_witness :
    exColumnBad.remove 7
      = { exColumnBad with
          entity_to_index := aerase 7 exColumnBad.entity_to_index
          free_slots := exColumnBad.free_slots ++ [exColumnBad.size - 1]
          size := exColumnBad.size - 1 } :=
  c6_amended exColumnBad 7 0 rfl (by decide) rfl

end ECS

namespace ECS

/-! ## Dict lemmas for the column invariant -/

section AssocLemmas

variable {κ β : Type} [DecidableEq κ]

theorem alookup_eq_none {k : κ} {l : List (κ × β)} :
    alookup k l = none ↔ k ∉ akeys l := by
  induction l with
  | nil => simp [alookup, akeys]
  | cons hd t ih =>
      obtain ⟨k', v'⟩ := hd
      by_cases hk : k' = k
      · subst hk; simp [alookup, akeys]
      · have hk2 : ¬ k = k' := fun h => hk h.symm
        simp [alookup, akeys, hk, hk2, ih]

theorem aset_fresh {k : κ} (v : β) {l : List (κ × β)}
    (h : alookup k l = none) : aset k v l = l ++ [(k, v)] := by
  induction l with
  | nil => simp [aset]
  | cons hd t ih =>
      obtain ⟨k', v'⟩ := hd
      by_cases hk : k' = k
      · simp [alookup, hk] at h
      · simp only [alookup, if_neg hk] at h
        simp [aset, hk, ih h]

theorem aerase_sublist (k : κ) (l : List (κ × β)) :
    (aerase k l).Sublist l := by
  induction l with
  | nil => simp [aerase]
  | cons hd t ih =>
      obtain ⟨k', v'⟩ := hd
      by_cases hk : k' = k
      · simpa [aerase, hk] using List.sublist_cons_self (k', v') t
      · simpa [aerase, hk] using ih.cons₂ (k', v')

theorem perm_cons_aerase {k : κ} {v : β} {l : List (κ × β)}
    (h : alookup k l = some v) : l.Perm ((k, v) :: aerase k l) := by
  induction l with
  | nil => simp [alookup] at h
  | cons hd t ih =>
      obtain ⟨k', v'⟩ := hd
      by_cases hk : k' = k
      · simp only [alookup, if_pos hk, Option.some.injEq] at h
        subst hk; subst h; simp [aerase]
      · simp only [alookup, if_neg hk] at h
        have := (ih h).cons (k', v')
        simp only [aerase, if_neg hk]
        exact this.trans (List.Perm.swap (k, v) (k', v') (aerase k t))

theorem aset_perm {k : κ} {v : β} (w : β) {l : List (κ × β)}
    (h : alookup k l = some v) :
    (aset k w l).Perm ((k, w) :: aerase k l) := by
  induction l with
  | nil => simp [alookup] at h
  | cons hd t ih =>
      obtain ⟨k', v'⟩ := hd
      by_cases hk : k' = k
      · subst hk
        simp only [alookup, if_pos rfl, Option.some.injEq] at h
        simp [aset, aerase]
      · simp only [alookup, if_neg hk] at h
        have := (ih h).cons (k', v')
        simp only [aset, aerase, if_neg hk]
        exact this.trans (List.Perm.swap (k, w) (k', v') (aerase k t))

theorem alookup_mem {k : κ} {v : β} {l : List (κ × β)}
    (h : alookup k l = some v) : (k, v) ∈ l := by
  induction l with
  | nil => simp [alookup] at h
  | cons hd t ih =>
      obtain ⟨k', v'⟩ := hd
      by_cases hk : k' = k
      · simp only [alookup, if_pos hk, Option.some.injEq] at h
        simp [hk, h]
      · simp only [alookup, if_neg hk] at h
        exact List.mem_cons_of_mem _ (ih h)

theorem alookup_of_mem_nodup {k : κ} {v : β} {l : List (κ × β)}
    (hmem : (k, v) ∈ l) (hnd : (akeys l).Nodup) : alookup k l = some v := by
  induction l with
  | nil => simp at hmem
  | cons hd t ih =>
      obtain ⟨k', v'⟩ := hd
      simp only [akeys, List.map_cons, List.nodup_cons] at hnd
      rcases List.mem_cons.mp hmem with heq | hmem'
      · have hk : k' = k := congrArg Prod.fst heq.symm
        have hv : v' = v := congrArg Prod.snd heq.symm
        simp [alookup, hk, hv]
      · have hk : k' ≠ k := by
          rintro rfl
          exact hnd.1 (by simpa [akeys] using List.mem_map_of_mem Prod.fst hmem')
        simp [alookup, hk, ih hmem' hnd.2]

theorem afind_key_isSome [DecidableEq β] {v : β} {l : List (κ × β)}
    (h : v ∈ avals l) : ∃ k, afind_key v l = some k := by
  induction l with
  | nil => simp [avals] at h
  | cons hd t ih =>
      obtain ⟨k', v'⟩ := hd
      by_cases hv : v' = v
      · exact ⟨k', by simp [afind_key, hv]⟩
      · simp only [avals, List.map_cons, List.mem_cons] at h
        rcases h with h | h
        · exact absurd h.symm hv
        · obtain ⟨k, hk⟩ := ih h
          exact ⟨k, by simp [afind_key, hv, hk]⟩

theorem afind_key_mem [DecidableEq β] {v : β} {k : κ} {l : List (κ × β)}
    (h : afind_key v l = some k) : (k, v) ∈ l := by
  induction l with
  | nil => simp [afind_key] at h
  | cons hd t ih =>
      obtain ⟨k', v'⟩ := hd
      by_cases hv : v' = v
      · simp only [afind_key, if_pos hv, Option.some.injEq] at h
        simp [h, hv]
      · simp only [afind_key, if_neg hv] at h
        exact List.mem_cons_of_mem _ (ih h)

theorem akeys_notMem_aerase {k : κ} {l : List (κ × β)}
    (hnd : (akeys l).Nodup) : k ∉ akeys (aerase k l) := by
  induction l with
  | nil => simp [aerase, akeys]
  | cons hd t ih =>
      obtain ⟨k', v'⟩ := hd
      simp only [akeys, List.map_cons, List.nodup_cons] at hnd
      by_cases hk : k' = k
      · subst hk
        simpa [aerase, akeys] using hnd.1
      · simp only [aerase, if_neg hk, akeys, List.map_cons, List.mem_cons]
        rintro (h | h)
        · exact hk h.symm
        · exact ih hnd.2 h

end AssocLemmas

end ECS

namespace ECS

/-! ## Branch equations for the column operations -/

theorem add_eq_invalid {c : Component} {e : Nat} {val? : Option (List Val)}
    (hlen : (val?.getD c.dflt).length ≠ c.dims) :
    c.add e val? = (c, some "InvalidDimension") := by
  simp [Component.add, hlen]

theorem add_eq_pop {c : Component} {e : Nat} {val? : Option (List Val)} {idx : Nat}
    (hlen : (val?.getD c.dflt).length = c.dims)
    (hfs : c.free_slots.getLast? = some idx)
    (hlt : idx < c.matrix.length) :
    c.add e val? =
      ({ c with
          matrix := c.matrix.set idx (val?.getD c.dflt)
          entity_to_index := aset e idx c.entity_to_index
          free_slots := c.free_slots.dropLast
          size := c.size + 1 }, none) := by
  simp [Component.add, hlen, hfs, hlt]

theorem add_eq_app {c : Component} {e : Nat} {val? : Option (List Val)}
    (hlen : (val?.getD c.dflt).length = c.dims)
    (hfs : c.free_slots.getLast? = none)
    (hlt : c.size < c.matrix.length) :
    c.add e val? =
      ({ c with
          matrix := c.matrix.set c.size (val?.getD c.dflt)
          entity_to_index := aset e c.size c.entity_to_index
          size := c.size + 1 }, none) := by
  simp [Component.add, hlen, hfs, Nat.not_le.mpr hlt, hlt]

theorem add_eq_grow_ok {c : Component} {e : Nat} {val? : Option (List Val)}
    {mat : List (List Val)}
    (hlen : (val?.getD c.dflt).length = c.dims)
    (hfs : c.free_slots.getLast? = none)
    (hge : c.matrix.length ≤ c.size)
    (hok : ensure_capacity c.matrix c.dims (c.size + 1) = .ok mat)
    (hlt : c.size < mat.length) :
    c.add e val? =
      ({ c with
          matrix := mat.set c.size (val?.getD c.dflt)
          entity_to_index := aset e c.size c.entity_to_index
          size := c.size + 1 }, none) := by
  simp [Component.add, hlen, hfs, hge, hok, hlt]

theorem add_eq_grow_err {c : Component} {e : Nat} {val? : Option (List Val)}
    {err : String}
    (hlen : (val?.getD c.dflt).length = c.dims)
    (hfs : c.free_slots.getLast? = none)
    (hge : c.matrix.length ≤ c.size)
    (herr : ensure_capacity c.matrix c.dims (c.size + 1) = .error err) :
    c.add e val? = (c, some err) := by
  simp [Component.add, hlen, hfs, hge, herr]

theorem remove_eq_none {c : Component} {e : Nat}
    (h : alookup e c.entity_to_index = none) : c.remove e = c := by
  simp [Component.remove, h]

theorem remove_eq_last {c : Component} {e : Nat} {idx : Nat}
    (h : alookup e c.entity_to_index = some idx)
    (heq : idx = c.size - 1) :
    c.remove e =
      { c with
          entity_to_index := aerase e c.entity_to_index
          free_slots := c.free_slots ++ [c.size - 1]
          size := c.size - 1 } := by
  simp [Component.remove, h, heq]

theorem remove_eq_swap {c : Component} {e : Nat} {idx swapped : Nat}
    (h : alookup e c.entity_to_index = some idx)
    (hne : idx ≠ c.size - 1)
    (hsw : afind_key (c.size - 1) (aerase e c.entity_to_index) = some swapped) :
    c.remove e =
      { c with
          matrix := c.matrix.set idx (c.matrix.getD (c.size - 1) [])
          entity_to_index := aset swapped idx (aerase e c.entity_to_index)
          free_slots := c.free_slots ++ [c.size - 1]
          size := c.size - 1 } := by
  simp [Component.remove, h, hne, hsw]

theorem update_eq_notfound {c : Component} {e : Nat} {v : List Val}
    (h : alookup e c.entity_to_index = none) :
    c.update_value e v = (c, some "NotFound") := by
  simp [Component.update_value, h]

theorem update_eq_ok {c : Component} {e : Nat} {v : List Val} {idx : Nat}
    (h : alookup e c.entity_to_index = some idx)
    (hlen : v.length = c.dims)
    (hlt : idx < c.matrix.length) :
    c.update_value e v = ({ c with matrix := c.matrix.set idx v }, none) := by
  simp [Component.update_value, h, hlen, hlt]

end ECS

namespace ECS

/-! ## The column invariant

Live rows are dense in `[0, size)`, the free list is exactly
`[size + k - 1, …, size]` (LIFO of the freed slots), and every row at or
above `size + k` still holds the all-NaN sentinel fill. -/

structure CInv (c : Component) : Prop where
  keys_nodup : (akeys c.entity_to_index).Nodup
  vals_nodup : (avals c.entity_to_index).Nodup
  vals_dense : ∀ v, v ∈ avals c.entity_to_index ↔ v < c.size
  free_eq : c.free_slots = (List.range' c.size c.free_slots.length).reverse
  cap_ge : c.size + c.free_slots.length ≤ c.matrix.length
  nan_hi : ∀ r row, c.size + c.free_slots.length ≤ r → c.matrix[r]? = some row →
      row.all Val.isNan = true
  widths : ∀ row ∈ c.matrix, row.length = c.dims

theorem CInv.free_mem_iff {c : Component} (h : CInv c) {r : Nat} :
    r ∈ c.free_slots ↔ c.size ≤ r ∧ r < c.size + c.free_slots.length := by
  conv_lhs => rw [h.free_eq]
  simp [List.mem_reverse, List.mem_range'_1]

theorem CInv.free_getLast {c : Component} (h : CInv c) (hne : c.free_slots ≠ []) :
    c.free_slots.getLast? = some c.size := by
  conv_lhs => rw [h.free_eq]
  rw [List.getLast?_reverse]
  rcases hk : c.free_slots.length with _ | k
  · exact absurd (List.length_eq_zero.mp hk) hne
  · rw [List.range'_succ]
    rfl

theorem CInv.free_dropLast {c : Component} (h : CInv c) :
    c.free_slots.dropLast = (List.range' (c.size + 1) (c.free_slots.length - 1)).reverse := by
  conv_lhs => rw [h.free_eq]
  rcases hk : c.free_slots.length with _ | k
  · rfl
  · rw [List.range'_succ, List.reverse_cons, List.dropLast_concat]
    rfl

theorem CInv_init (d : Nat) (dflt : List Val) : CInv (Component.init d dflt) := by
  refine ⟨by simp [Component.init, akeys], by simp [Component.init, avals],
    by simp [Component.init, avals], by simp [Component.init],
    by simp [Component.init], ?_, ?_⟩
  · intro r row _ hrow
    have hmem : row ∈ (Component.init d dflt).matrix := List.getElem?_mem hrow
    simp only [Component.init] at hmem
    rw [List.mem_replicate] at hmem
    obtain ⟨-, hrep⟩ := hmem
    subst hrep
    simp only [List.all_eq_true]
    intro a ha
    rw [List.eq_of_mem_replicate ha]
    rfl
  · intro row hrow
    simp only [Component.init] at hrow
    rw [List.mem_replicate] at hrow
    obtain ⟨-, hrep⟩ := hrow
    subst hrep
    simp [Component.init]

end ECS

namespace ECS

section AssocLemmas2

variable {κ β : Type} [DecidableEq κ]

theorem akeys_aset_fresh {e : κ} (v : β) {l : List (κ × β)}
    (h : alookup e l = none) : akeys (aset e v l) = akeys l ++ [e] := by
  rw [aset_fresh v h]; simp [akeys]

theorem avals_aset_fresh {e : κ} (v : β) {l : List (κ × β)}
    (h : alookup e l = none) : avals (aset e v l) = avals l ++ [v] := by
  rw [aset_fresh v h]; simp [avals]

end AssocLemmas2

theorem CInv_add {c : Component} (h : CInv c) (e : Nat) (val? : Option (List Val))
    (hfresh : alookup e c.entity_to_index = none) : CInv (c.add e val?).1 := by
  by_cases hlen : (val?.getD c.dflt).length = c.dims
  case neg => rw [add_eq_invalid hlen]; exact h
  have hknd : (akeys (aset e c.size c.entity_to_index)).Nodup := by
    rw [akeys_aset_fresh c.size hfresh]
    refine List.Nodup.append h.keys_nodup (List.nodup_singleton e) ?_
    intro x hx hxe
    rw [List.mem_singleton] at hxe
    subst hxe
    exact (alookup_eq_none.mp hfresh) hx
  have hvnd : (avals (aset e c.size c.entity_to_index)).Nodup := by
    rw [avals_aset_fresh c.size hfresh]
    refine List.Nodup.append h.vals_nodup (List.nodup_singleton _) ?_
    intro x hx hxe
    rw [List.mem_singleton] at hxe
    subst hxe
    exact absurd ((h.vals_dense _).mp hx) (Nat.lt_irrefl _)
  have hvd : ∀ v, v ∈ avals (aset e c.size c.entity_to_index) ↔ v < c.size + 1 := by
    intro v
    rw [avals_aset_fresh c.size hfresh]
    simp only [List.mem_append, List.mem_singleton, h.vals_dense v]
    omega
  rcases hfe : c.free_slots.getLast? with _ | idx
  · -- empty free list: append at index `size`
    have hfnil : c.free_slots = [] := List.getLast?_eq_none.mp hfe
    by_cases hlt : c.size < c.matrix.length
    · rw [add_eq_app hlen hfe hlt]
      refine ⟨hknd, hvnd, hvd, by simp [hfnil], ?_, ?_, ?_⟩
      · simpa [hfnil] using Nat.succ_le_of_lt hlt
      · intro r row hr hrow
        have hner : c.size ≠ r := by simp [hfnil] at hr; omega
        rw [List.getElem?_set_ne hner] at hrow
        exact h.nan_hi r row (by simp [hfnil] at hr ⊢; omega) hrow
      · intro row hrow
        rcases List.mem_or_eq_of_mem_set hrow with hm | hv
        · exact h.widths row hm
        · rw [hv]; exact hlen
    · push_neg at hlt
      have hlen0 : c.matrix.length = c.size :=
        le_antisymm hlt (by simpa [hfnil] using h.cap_ge)
      by_cases hbig : 2 < c.size
      · -- growth factor wins: np.full raises TypeError, state unchanged
        have herr : ensure_capacity c.matrix c.dims (c.size + 1)
            = .error "TypeError: float cannot be interpreted as an integer" := by
          unfold ensure_capacity
          rw [hlen0]
          rw [if_neg (by omega), if_pos (by omega)]
        rw [add_eq_grow_err hlen hfe hlt herr]
        exact h
      · push_neg at hbig
        have hok : ensure_capacity c.matrix c.dims (c.size + 1)
            = .ok (c.matrix ++ List.replicate 1 (List.replicate c.dims Val.nan)) := by
          unfold ensure_capacity
          rw [hlen0]
          rw [if_neg (by omega), if_neg (by omega)]
          have h1 : c.size + 1 - c.size = 1 := by omega
          rw [h1]
        have hmatlen :
            (c.matrix ++ List.replicate 1 (List.replicate c.dims Val.nan)).length
              = c.size + 1 := by
          simp [hlen0]
        rw [add_eq_grow_ok hlen hfe hlt hok (by omega)]
        refine ⟨hknd, hvnd, hvd, by simp [hfnil], ?_, ?_, ?_⟩
        · dsimp only
          rw [List.length_set, hmatlen]
          simp [hfnil]
        · intro r row hr hrow
          dsimp only at hr hrow
          simp only [hfnil, List.length_nil, Nat.add_zero] at hr
          have hner : c.size ≠ r := by omega
          rw [List.getElem?_set_ne hner] at hrow
          rw [List.getElem?_eq_none (by rw [hmatlen]; omega)] at hrow
          exact absurd hrow (by simp)
        · intro row hrow
          rcases List.mem_or_eq_of_mem_set hrow with hm | hv
          · rcases List.mem_append.mp hm with hm1 | hm2
            · exact h.widths row hm1
            · rw [List.eq_of_mem_replicate hm2]; simp
          · rw [hv]; exact hlen
  · -- reuse the most recently freed slot, which is row `size`
    have hne : c.free_slots ≠ [] := by
      intro hnil
      rw [hnil] at hfe
      simp at hfe
    have hidx : idx = c.size := by
      have hg := h.free_getLast hne
      rw [hfe] at hg
      exact Option.some.inj hg
    subst hidx
    have hk1 : 1 ≤ c.free_slots.length := by
      rcases hkl : c.free_slots.length with _ | k
      · exact absurd (List.length_eq_zero.mp hkl) hne
      · omega
    have hlt : c.size < c.matrix.length := by
      have := h.cap_ge
      omega
    rw [add_eq_pop hlen hfe hlt]
    refine ⟨hknd, hvnd, hvd, ?_, ?_, ?_, ?_⟩
    · dsimp only
      rw [List.length_dropLast]
      exact h.free_dropLast
    · dsimp only
      rw [List.length_set, List.length_dropLast]
      have := h.cap_ge
      omega
    · intro r row hr hrow
      dsimp only at hr hrow
      rw [List.length_dropLast] at hr
      have hner : c.size ≠ r := by omega
      rw [List.getElem?_set_ne hner] at hrow
      exact h.nan_hi r row (by omega) hrow
    · intro row hrow
      rcases List.mem_or_eq_of_mem_set hrow with hm | hv
      · exact h.widths row hm
      · rw [hv]; exact hlen

end ECS

namespace ECS

theorem update_eq_baddim {c : Component} {e : Nat} {v : List Val} {idx : Nat}
    (h : alookup e c.entity_to_index = some idx)
    (hlen : v.length ≠ c.dims) :
    c.update_value e v = (c, some "InvalidDimension") := by
  simp [Component.update_value, h, hlen]

theorem CInv_remove {c : Component} (h : CInv c) (e : Nat) : CInv (c.remove e) := by
  rcases hl : alookup e c.entity_to_index with _ | idx
  · rw [remove_eq_none hl]; exact h
  have hidx_mem : idx ∈ avals c.entity_to_index :=
    List.mem_map_of_mem Prod.snd (alookup_mem hl)
  have hidx_lt : idx < c.size := (h.vals_dense idx).mp hidx_mem
  have hsz : 1 ≤ c.size := by omega
  have hperm : c.entity_to_index.Perm ((e, idx) :: aerase e c.entity_to_index) :=
    perm_cons_aerase hl
  have hpermv : (avals c.entity_to_index).Perm
      (idx :: avals (aerase e c.entity_to_index)) := by
    simpa [avals] using hperm.map Prod.snd
  have hmk : (akeys (aerase e c.entity_to_index)).Nodup :=
    ((aerase_sublist e c.entity_to_index).map Prod.fst).nodup h.keys_nodup
  have hmv_cons : (idx :: avals (aerase e c.entity_to_index)).Nodup :=
    hpermv.nodup h.vals_nodup
  have hmv : (avals (aerase e c.entity_to_index)).Nodup :=
    (List.nodup_cons.mp hmv_cons).2
  have hidx_not : idx ∉ avals (aerase e c.entity_to_index) :=
    (List.nodup_cons.mp hmv_cons).1
  have hmv_mem : ∀ v, v ∈ avals (aerase e c.entity_to_index) ↔
      v < c.size ∧ v ≠ idx := by
    intro v
    constructor
    · intro hv
      have h1 : v ∈ avals c.entity_to_index :=
        hpermv.mem_iff.mpr (List.mem_cons_of_mem _ hv)
      exact ⟨(h.vals_dense v).mp h1, fun hveq => hidx_not (hveq ▸ hv)⟩
    · rintro ⟨hvlt, hvne⟩
      have h1 : v ∈ avals c.entity_to_index := (h.vals_dense v).mpr hvlt
      rcases List.mem_cons.mp (hpermv.mem_iff.mp h1) with rfl | hv
      · exact absurd rfl hvne
      · exact hv
  have hfree_eq_new : c.free_slots ++ [c.size - 1]
      = (List.range' (c.size - 1) ((c.free_slots ++ [c.size - 1]).length)).reverse := by
    rw [List.length_append, List.length_singleton]
    have hs1 : c.size - 1 + 1 = c.size := by omega
    have hr : List.range' (c.size - 1) (c.free_slots.length + 1)
        = (c.size - 1) :: List.range' c.size c.free_slots.length := by
      rw [List.range'_succ, hs1]
    rw [hr, List.reverse_cons]
    conv_lhs => rw [h.free_eq]
  by_cases hcase : idx = c.size - 1
  · subst hcase
    rw [remove_eq_last hl rfl]
    refine ⟨hmk, hmv, ?_, hfree_eq_new, ?_, ?_, h.widths⟩
    · intro v
      dsimp only
      rw [hmv_mem v]
      omega
    · dsimp only
      rw [List.length_append, List.length_singleton]
      have := h.cap_ge
      omega
    · intro r row hr hrow
      dsimp only at hr hrow
      rw [List.length_append, List.length_singleton] at hr
      exact h.nan_hi r row (by omega) hrow
  · have hlast_mem_m : c.size - 1 ∈ avals (aerase e c.entity_to_index) := by
      rw [hmv_mem]
      exact ⟨by omega, fun hne2 => hcase hne2.symm⟩
    obtain ⟨swapped, hsw⟩ := afind_key_isSome hlast_mem_m
    rw [remove_eq_swap hl hcase hsw]
    have hswm : (swapped, c.size - 1) ∈ aerase e c.entity_to_index := afind_key_mem hsw
    have hswl : alookup swapped (aerase e c.entity_to_index) = some (c.size - 1) :=
      alookup_of_mem_nodup hswm hmk
    have hperm2 : (aset swapped idx (aerase e c.entity_to_index)).Perm
        ((swapped, idx) :: aerase swapped (aerase e c.entity_to_index)) :=
      aset_perm idx hswl
    have hperm3 : (aerase e c.entity_to_index).Perm
        ((swapped, c.size - 1) :: aerase swapped (aerase e c.entity_to_index)) :=
      perm_cons_aerase hswl
    have hpv2 : (avals (aset swapped idx (aerase e c.entity_to_index))).Perm
        (idx :: avals (aerase swapped (aerase e c.entity_to_index))) := by
      simpa [avals] using hperm2.map Prod.snd
    have hpv3 : (avals (aerase e c.entity_to_index)).Perm
        ((c.size - 1) :: avals (aerase swapped (aerase e c.entity_to_index))) := by
      simpa [avals] using hperm3.map Prod.snd
    have hAnd_cons : ((c.size - 1) :: avals (aerase swapped (aerase e c.entity_to_index))).Nodup :=
      hpv3.nodup hmv
    have hAnd : (avals (aerase swapped (aerase e c.entity_to_index))).Nodup :=
      (List.nodup_cons.mp hAnd_cons).2
    have hlast_notA : (c.size - 1) ∉ avals (aerase swapped (aerase e c.entity_to_index)) :=
      (List.nodup_cons.mp hAnd_cons).1
    have hAmem : ∀ v, v ∈ avals (aerase swapped (aerase e c.entity_to_index)) ↔
        (v < c.size ∧ v ≠ idx ∧ v ≠ c.size - 1) := by
      intro v
      constructor
      · intro hv
        have h1 : v ∈ avals (aerase e c.entity_to_index) :=
          hpv3.mem_iff.mpr (List.mem_cons_of_mem _ hv)
        have h2 := (hmv_mem v).mp h1
        exact ⟨h2.1, h2.2, fun heq => hlast_notA (heq ▸ hv)⟩
      · rintro ⟨h1, h2, h3⟩
        have h4 : v ∈ avals (aerase e c.entity_to_index) := (hmv_mem v).mpr ⟨h1, h2⟩
        rcases List.mem_cons.mp (hpv3.mem_iff.mp h4) with rfl | hv
        · exact absurd rfl h3
        · exact hv
    have hmk2 : (akeys (aerase swapped (aerase e c.entity_to_index))).Nodup :=
      ((aerase_sublist swapped (aerase e c.entity_to_index)).map Prod.fst).nodup hmk
    refine ⟨?_, ?_, ?_, hfree_eq_new, ?_, ?_, ?_⟩
    · have hk2 : (akeys (aset swapped idx (aerase e c.entity_to_index))).Perm
          (swapped :: akeys (aerase swapped (aerase e c.entity_to_index))) := by
        simpa [akeys] using hperm2.map Prod.fst
      refine hk2.nodup_iff.mpr (List.nodup_cons.mpr ⟨?_, hmk2⟩)
      exact akeys_notMem_aerase hmk
    · refine hpv2.nodup_iff.mpr (List.nodup_cons.mpr ⟨?_, hAnd⟩)
      intro hin
      exact absurd ((hAmem idx).mp hin).2.1 (by simp)
    · intro v
      dsimp only
      rw [hpv2.mem_iff, List.mem_cons, hAmem v]
      omega
    · dsimp only
      rw [List.length_set, List.length_append, List.length_singleton]
      have := h.cap_ge
      omega
    · intro r row hr hrow
      dsimp only at hr hrow
      rw [List.length_append, List.length_singleton] at hr
      have hner : idx ≠ r := by omega
      rw [List.getElem?_set_ne hner] at hrow
      exact h.nan_hi r row (by omega) hrow
    · intro row hrow
      rcases List.mem_or_eq_of_mem_set hrow with hm | hv
      · exact h.widths row hm
      · have hlt2 : c.size - 1 < c.matrix.length := by
          have := h.cap_ge
          omega
        rw [hv, List.getD_eq_getElem c.matrix [] hlt2]
        exact h.widths _ (List.getElem_mem hlt2)

theorem CInv_update {c : Component} (h : CInv c) (e : Nat) (v : List Val) :
    CInv (c.update_value e v).1 := by
  rcases hl : alookup e c.entity_to_index with _ | idx
  · rw [update_eq_notfound hl]; exact h
  by_cases hlen : v.length = c.dims
  case neg => rw [update_eq_baddim hl hlen]; exact h
  have hidx_lt : idx < c.size :=
    (h.vals_dense idx).mp (List.mem_map_of_mem Prod.snd (alookup_mem hl))
  have hlt : idx < c.matrix.length := by
    have := h.cap_ge
    omega
  rw [update_eq_ok hl hlen hlt]
  refine ⟨h.keys_nodup, h.vals_nodup, h.vals_dense, h.free_eq, ?_, ?_, ?_⟩
  · dsimp only
    rw [List.length_set]
    exact h.cap_ge
  · intro r row hr hrow
    dsimp only at hr hrow
    have hner : idx ≠ r := by omega
    rw [List.getElem?_set_ne hner] at hrow
    exact h.nan_hi r row (by omega) hrow
  · intro row hrow
    rcases List.mem_or_eq_of_mem_set hrow with hm | hv
    · exact h.widths row hm
    · rw [hv]; exact hlen

end ECS

namespace ECS

/-- Column states reachable from a fresh column by `add` (of an entity
not already present, the documented precondition), `remove` and
`update_value`, including the states left behind by failed calls. -/
inductive CReach (d : Nat) (dflt : List Val) : Component → Prop where
  | init : CReach d dflt (Component.init d dflt)
  | add : ∀ {c} (e : Nat) (val? : Option (List Val)), CReach d dflt c →
      alookup e c.entity_to_index = none → CReach d dflt (c.add e val?).1
  | remove : ∀ {c} (e : Nat), CReach d dflt c → CReach d dflt (c.remove e)
  | update : ∀ {c} (e : Nat) (v : List Val), CReach d dflt c →
      CReach d dflt (c.update_value e v).1

theorem CReach_CInv {d : Nat} {dflt : List Val} {c : Component}
    (h : CReach d dflt c) : CInv c := by
  induction h with
  | init => exact CInv_init d dflt
  | add e val? _ hfresh ih => exact CInv_add ih e val? hfresh
  | remove e _ ih => exact CInv_remove ih e
  | update e v _ ih => exact CInv_update ih e v

/-! ## C8 — absent rows and the NaN sentinel -/

/-- C8 counterexample: the claim states that every row index in
`[0, capacity)` that is not a value of `entity_to_row` holds NaN in all
lanes.  After `add(0, (5,)); remove(0)` on a fresh D=1 column, row 0 is
not a value of the (now empty) `entity_to_index`, yet it still holds the
stale value 5: `remove` frees a slot without overwriting its contents. -/
theorem c8_counterexample :
    avals ((((Component.init 1 [Val.num 0]).add 0
        (some [Val.num 5])).1).remove 0).entity_to_index = []
    ∧ ((((Component.init 1 [Val.num 0]).add 0
        (some [Val.num 5])).1).remove 0).matrix[0]? = some [Val.num 5]
    ∧ ([Val.num 5].all Val.isNan) = false := by
  decide

/-- C8 amended: in every column state reachable by `add` (of entities
not already present), `remove` and `update_value`, every row index that
is neither a value of `entity_to_row` nor a member of `free_rows` holds
the NaN sentinel in all lanes.  (Freed rows may retain stale values; the
original claim must exclude them.) -/
theorem c8_amended {d : Nat} {dflt : List Val} {c : Component}
    (h : CReach d dflt c) (r : Nat) (row : List Val)
    (hmap : r ∉ avals c.entity_to_index)
    (hfree : r ∉ c.free_slots)
    (hrow : c.matrix[r]? = some row) :
    row.all Val.isNan = true := by
  have hi := CReach_CInv h
  have hge : c.size ≤ r := by
    rcases Nat.lt_or_ge r c.size with hlt | hge
    · exact absurd ((hi.vals_dense r).mpr hlt) hmap
    · exact hge
  have hhi : c.size + c.free_slots.length ≤ r := by
    by_contra hlt
    push_neg at hlt
    exact hfree (hi.free_mem_iff.mpr ⟨hge, hlt⟩)
  exact hi.nan_hi r row hhi hrow

/-- Witness for `c8_amended`: on the column reached by `add(0, (5,))`
from a fresh D=1 column, row 1 is unmapped and unfreed, and indeed holds
the NaN sentinel. -/
theorem c8_amended_witness : (([Val.nan] : List Val).all Val.isNan) = true :=
  c8_amended
    (show CReach 1 [Val.num 0] ((Component.init 1 [Val.num 0]).add 0
        (some [Val.num 5])).1 from CReach.add 0 (some [Val.num 5]) CReach.init rfl)
    1 [Val.nan] (by decide) (by decide) (by decide)

end ECS

namespace ECS

/-! ## Component types and the registry (ecs/component.py) -/

/-- A component type: identity plus its `dimensions` property.  Two
distinct Python classes are modelled by distinct `id` fields. -/
structure CType where
  id : Nat
  dims : Nat
deriving DecidableEq, Repr

/-- `ComponentRegistry`: `_component_bits` (dict, insertion-ordered),
`_next_bit`, and the `components` instance dict. -/
structure ComponentRegistry where
  component_bits : List (CType × Nat)
  next_bit : Nat
  components : List (CType × Component)
deriving DecidableEq, Repr

def ComponentRegistry.init : ComponentRegistry :=
  { component_bits := [], next_bit := 1, components := [] }

/-- `ComponentRegistry.get_bit`: return the type's bit, assigning
`_next_bit` (and doubling it) on first use. -/
def get_bit (r : ComponentRegistry) (t : CType) : ComponentRegistry × Nat :=
  match alookup t r.component_bits with
  | some b => (r, b)
  | none =>
      ({ r with
          component_bits := r.component_bits ++ [(t, r.next_bit)]
          next_bit := r.next_bit <<< 1 }, r.next_bit)

/-- The `signature |= get_bit(comp_type)` loop of `compute_signature`,
with the running `(registry, signature)` accumulator made explicit. -/
def sigFold (st : ComponentRegistry × Nat) (ts : List CType) :
    ComponentRegistry × Nat :=
  ts.foldl (fun acc t =>
    let rb := get_bit acc.1 t
    (rb.1, acc.2 ||| rb.2)) st

/-- `ComponentRegistry.compute_signature` over a list of types. -/
def compute_signature (r : ComponentRegistry) (components : List CType) :
    ComponentRegistry × Nat :=
  sigFold (r, 0) components

theorem lor_absorb {b s : Nat} (h : b ||| s = s) (x : Nat) :
    b ||| (s ||| x) = s ||| x := by
  rw [← Nat.lor_assoc, h]

theorem lor_absorb_self (s b : Nat) : b ||| (s ||| b) = s ||| b := by
  rw [Nat.lor_comm s b, ← Nat.lor_assoc]
  simp

theorem sigFold_cons (st : ComponentRegistry × Nat) (t : CType) (ts : List CType) :
    sigFold st (t :: ts)
      = sigFold ((get_bit st.1 t).1, st.2 ||| (get_bit st.1 t).2) ts := rfl

theorem sigFold_nil (st : ComponentRegistry × Nat) : sigFold st [] = st := rfl

theorem alookup_append {κ β : Type} [DecidableEq κ] {u : κ} (l1 l2 : List (κ × β)) :
    alookup u (l1 ++ l2)
      = match alookup u l1 with
        | some v => some v
        | none => alookup u l2 := by
  induction l1 with
  | nil => simp [alookup]
  | cons hd t ih =>
      obtain ⟨k', v'⟩ := hd
      by_cases hk : k' = u
      · simp [alookup, hk]
      · simp [alookup, hk, ih]

end ECS

namespace ECS

/-! ## Signature invariance machinery

`compute_signature` threads the registry through `get_bit`, which assigns
fresh bits, so two runs over permuted lists end in different registries.
`RegEquiv` relates two `(registry, signature)` states that agree on the
signature, the next free bit, and on every type's bit except for types
whose (differing) bits are already absorbed into both signatures. -/

def RegEquiv (s1 s2 : ComponentRegistry × Nat) : Prop :=
  s1.2 = s2.2 ∧ s1.1.next_bit = s2.1.next_bit ∧
  ∀ t, alookup t s1.1.component_bits = alookup t s2.1.component_bits ∨
    (∃ b1 b2, alookup t s1.1.component_bits = some b1 ∧
      alookup t s2.1.component_bits = some b2 ∧
      b1 ||| s1.2 = s1.2 ∧ b2 ||| s2.2 = s2.2)

theorem RegEquiv.refl (s : ComponentRegistry × Nat) : RegEquiv s s :=
  ⟨rfl, rfl, fun _ => Or.inl rfl⟩

theorem RegEquiv.trans {a b c : ComponentRegistry × Nat}
    (h1 : RegEquiv a b) (h2 : RegEquiv b c) : RegEquiv a c := by
  obtain ⟨hs1, hn1, ha1⟩ := h1
  obtain ⟨hs2, hn2, ha2⟩ := h2
  refine ⟨hs1.trans hs2, hn1.trans hn2, fun t => ?_⟩
  rcases ha1 t with he1 | ⟨b1, b2, e1, e2, q1, q2⟩
  · rcases ha2 t with he2 | ⟨b2, b3, e2, e3, q2, q3⟩
    · exact Or.inl (he1.trans he2)
    · exact Or.inr ⟨b2, b3, he1.trans e2, e3, hs1 ▸ q2, q3⟩
  · rcases ha2 t with he2 | ⟨b2', b3, e2', e3, q2', q3⟩
    · exact Or.inr ⟨b1, b2, e1, he2 ▸ e2, q1, hs2 ▸ q2⟩
    · have hbb : b2 = b2' := by
        have := e2.symm.trans e2'
        exact Option.some.inj this
      exact Or.inr ⟨b1, b3, e1, e3, q1, q3⟩

/-- One iteration of the `compute_signature` loop. -/
def sigStep (st : ComponentRegistry × Nat) (t : CType) : ComponentRegistry × Nat :=
  ((get_bit st.1 t).1, st.2 ||| (get_bit st.1 t).2)

theorem sigFold_cons_step (st : ComponentRegistry × Nat) (t : CType)
    (ts : List CType) : sigFold st (t :: ts) = sigFold (sigStep st t) ts := rfl

theorem RegEquiv.step {p q : ComponentRegistry × Nat} (h : RegEquiv p q)
    (t : CType) : RegEquiv (sigStep p t) (sigStep q t) := by
  obtain ⟨hsig, hnext, hall⟩ := h
  rcases hall t with heq | ⟨b1, b2, hb1, hb2, ha1, ha2⟩
  · cases hl : alookup t p.1.component_bits with
    | some b =>
        have hl2 : alookup t q.1.component_bits = some b := heq ▸ hl
        refine ⟨?_, ?_, ?_⟩
        · simp only [sigStep, get_bit, hl, hl2, hsig]
        · simp only [sigStep, get_bit, hl, hl2]
          exact hnext
        · intro u
          rcases hall u with h' | ⟨c1, c2, e1, e2, a1, a2⟩
          · exact Or.inl (by simpa only [sigStep, get_bit, hl, hl2] using h')
          · refine Or.inr ⟨c1, c2, ?_, ?_, ?_, ?_⟩
            · simpa only [sigStep, get_bit, hl, hl2] using e1
            · simpa only [sigStep, get_bit, hl, hl2] using e2
            · simp only [sigStep, get_bit, hl, hl2]
              exact lor_absorb a1 _
            · simp only [sigStep, get_bit, hl, hl2]
              exact lor_absorb a2 _
    | none =>
        have hl2 : alookup t q.1.component_bits = none := heq ▸ hl
        refine ⟨?_, ?_, ?_⟩
        · simp only [sigStep, get_bit, hl, hl2, hsig, hnext]
        · simp only [sigStep, get_bit, hl, hl2]
          rw [hnext]
        · intro u
          by_cases hu : u = t
          · subst hu
            refine Or.inl ?_
            simp only [sigStep, get_bit, hl, hl2]
            rw [alookup_append, alookup_append, hl, hl2]
            simp [alookup, hnext]
          · have hut : ∀ (l : List (CType × Nat)) (n : Nat),
                alookup u (l ++ [(t, n)]) = alookup u l := by
              intro l n
              rw [alookup_append]
              cases halu : alookup u l with
              | some v => rfl
              | none =>
                  have htu : ¬ t = u := fun h => hu h.symm
                  simp [alookup, htu]
            rcases hall u with h' | ⟨c1, c2, e1, e2, a1, a2⟩
            · refine Or.inl ?_
              simp only [sigStep, get_bit, hl, hl2]
              rw [hut, hut]
              exact h'
            · refine Or.inr ⟨c1, c2, ?_, ?_, ?_, ?_⟩
              · simp only [sigStep, get_bit, hl, hl2]
                rw [hut]
                exact e1
              · simp only [sigStep, get_bit, hl, hl2]
                rw [hut]
                exact e2
              · simp only [sigStep, get_bit, hl, hl2]
                exact lor_absorb a1 _
              · simp only [sigStep, get_bit, hl, hl2]
                exact lor_absorb a2 _
  · have hp : p.2 ||| b1 = p.2 := by rw [Nat.lor_comm]; exact ha1
    have hq : q.2 ||| b2 = q.2 := by rw [Nat.lor_comm]; exact ha2
    have e1 : sigStep p t = (p.1, p.2) := by
      simp only [sigStep, get_bit, hb1, hp]
    have e2 : sigStep q t = (q.1, q.2) := by
      simp only [sigStep, get_bit, hb2, hq]
    rw [e1, e2]
    exact ⟨hsig, hnext, hall⟩

theorem RegEquiv.fold {p q : ComponentRegistry × Nat} (h : RegEquiv p q)
    (ts : List CType) : RegEquiv (sigFold p ts) (sigFold q ts) := by
  induction ts generalizing p q with
  | nil => exact h
  | cons t ts ih =>
      rw [sigFold_cons_step, sigFold_cons_step]
      exact ih (h.step t)

theorem lor_right_comm (a b c : Nat) : a ||| b ||| c = a ||| c ||| b := by
  rw [Nat.lor_assoc, Nat.lor_comm b c, ← Nat.lor_assoc]

/-- Processing two types in either order yields `RegEquiv` states. -/
theorem sigStep_comm (p : ComponentRegistry × Nat) (x y : CType) :
    RegEquiv (sigStep (sigStep p y) x) (sigStep (sigStep p x) y) := by
  by_cases hxy : x = y
  · subst hxy; exact RegEquiv.refl _
  have hyx : ¬ y = x := fun h => hxy h.symm
  cases hx : alookup x p.1.component_bits with
  | some bx =>
      cases hy : alookup y p.1.component_bits with
      | some by' =>
          have e1 : sigStep (sigStep p y) x = (p.1, p.2 ||| by' ||| bx) := by
            simp only [sigStep, get_bit, hy, hx]
          have e2 : sigStep (sigStep p x) y = (p.1, p.2 ||| bx ||| by') := by
            simp only [sigStep, get_bit, hx, hy]
          rw [e1, e2, lor_right_comm]
          exact RegEquiv.refl _
      | none =>
          have hx2 : alookup x (p.1.component_bits ++ [(y, p.1.next_bit)])
              = some bx := by
            rw [alookup_append, hx]
          have hy2 : alookup y (p.1.component_bits ++ [(x, p.1.next_bit)])
              = none := by
            rw [alookup_append, hy]
            simp [alookup, hxy]
          have e1 : sigStep (sigStep p y) x
              = ({ p.1 with
                    component_bits := p.1.component_bits ++ [(y, p.1.next_bit)]
                    next_bit := p.1.next_bit <<< 1 },
                  p.2 ||| p.1.next_bit ||| bx) := by
            simp only [sigStep, get_bit, hy, hx2]
          have e2 : sigStep (sigStep p x) y
              = ({ p.1 with
                    component_bits := p.1.component_bits ++ [(y, p.1.next_bit)]
                    next_bit := p.1.next_bit <<< 1 },
                  p.2 ||| bx ||| p.1.next_bit) := by
            simp only [sigStep, get_bit, hx, hy]
          rw [e1, e2, lor_right_comm]
          exact RegEquiv.refl _
  | none =>
      cases hy : alookup y p.1.component_bits with
      | some by' =>
          have hy2 : alookup y (p.1.component_bits ++ [(x, p.1.next_bit)])
              = some by' := by
            rw [alookup_append, hy]
          have hx2 : alookup x (p.1.component_bits ++ [(y, p.1.next_bit)])
              = none := by
            rw [alookup_append, hx]
            simp [alookup, hyx]
          have e1 : sigStep (sigStep p y) x
              = ({ p.1 with
                    component_bits := p.1.component_bits ++ [(x, p.1.next_bit)]
                    next_bit := p.1.next_bit <<< 1 },
                  p.2 ||| by' ||| p.1.next_bit) := by
            simp only [sigStep, get_bit, hy, hx]
          have e2 : sigStep (sigStep p x) y
              = ({ p.1 with
                    component_bits := p.1.component_bits ++ [(x, p.1.next_bit)]
                    next_bit := p.1.next_bit <<< 1 },
                  p.2 ||| p.1.next_bit ||| by') := by
            simp only [sigStep, get_bit, hx, hy2]
          rw [e1, e2, lor_right_comm]
          exact RegEquiv.refl _
      | none =>
          have hx2 : alookup x (p.1.component_bits ++ [(y, p.1.next_bit)])
              = none := by
            rw [alookup_append, hx]
            simp [alookup, hyx]
          have hy2 : alookup y (p.1.component_bits ++ [(x, p.1.next_bit)])
              = none := by
            rw [alookup_append, hy]
            simp [alookup, hxy]
          have e1 : sigStep (sigStep p y) x
              = ({ p.1 with
                    component_bits := (p.1.component_bits ++ [(y, p.1.next_bit)])
                      ++ [(x, p.1.next_bit <<< 1)]
                    next_bit := p.1.next_bit <<< 1 <<< 1 },
                  p.2 ||| p.1.next_bit ||| p.1.next_bit <<< 1) := by
            simp only [sigStep, get_bit, hy, hx2]
          have e2 : sigStep (sigStep p x) y
              = ({ p.1 with
                    component_bits := (p.1.component_bits ++ [(x, p.1.next_bit)])
                      ++ [(y, p.1.next_bit <<< 1)]
                    next_bit := p.1.next_bit <<< 1 <<< 1 },
                  p.2 ||| p.1.next_bit ||| p.1.next_bit <<< 1) := by
            simp only [sigStep, get_bit, hx, hy2]
          rw [e1, e2]
          refine ⟨rfl, rfl, fun u => ?_⟩
          by_cases hux : u = x
          · subst hux
            refine Or.inr ⟨p.1.next_bit <<< 1, p.1.next_bit, ?_, ?_, ?_, ?_⟩
            · rw [alookup_append, hx2]
              simp [alookup]
            · rw [alookup_append, alookup_append, hx]
              have : ¬ y = u := hyx
              simp [alookup, this]
            · exact lor_absorb_self _ _
            · rw [← Nat.lor_assoc]
              rw [lor_absorb_self p.2 p.1.next_bit]
          · by_cases huy : u = y
            · subst huy
              refine Or.inr ⟨p.1.next_bit, p.1.next_bit <<< 1, ?_, ?_, ?_, ?_⟩
              · rw [alookup_append, alookup_append, hy]
                have : ¬ x = u := hxy
                simp [alookup, this]
              · rw [alookup_append, hy2]
                simp [alookup]
              · rw [← Nat.lor_assoc]
                rw [lor_absorb_self p.2 p.1.next_bit]
              · exact lor_absorb_self _ _
            · refine Or.inl ?_
              have hxu : ¬ x = u := fun h => hux h.symm
              have hyu : ¬ y = u := fun h => huy h.symm
              rw [alookup_append, alookup_append, alookup_append, alookup_append]
              cases h0 : alookup u p.1.component_bits with
              | some v => rfl
              | none => simp [alookup, hxu, hyu]

end ECS

namespace ECS

theorem sigFold_perm {ts us : List CType} (hp : ts.Perm us) :
    ∀ {p q : ComponentRegistry × Nat}, RegEquiv p q →
      RegEquiv (sigFold p ts) (sigFold q us) := by
  induction hp with
  | nil => intro p q h; exact h
  | cons x _ ih =>
      intro p q h
      rw [sigFold_cons_step, sigFold_cons_step]
      exact ih (h.step x)
  | swap x y l =>
      intro p q h
      rw [sigFold_cons_step, sigFold_cons_step, sigFold_cons_step, sigFold_cons_step]
      exact RegEquiv.fold (((h.step y).step x).trans (sigStep_comm q x y)) l
  | trans _ _ ih1 ih2 =>
      intro p q h
      exact (ih1 (RegEquiv.refl p)).trans (ih2 h)

/-- After its own `get_bit`, a type is assigned and its bit is absorbed
into the running signature. -/
theorem sigStep_self_absorbed (p : ComponentRegistry × Nat) (t : CType) :
    ∃ b, alookup t ((sigStep p t).1).component_bits = some b
      ∧ b ||| (sigStep p t).2 = (sigStep p t).2 := by
  cases hl : alookup t p.1.component_bits with
  | some b =>
      refine ⟨b, ?_, ?_⟩
      · simp only [sigStep, get_bit, hl]
      · simp only [sigStep, get_bit, hl]
        exact lor_absorb_self _ _
  | none =>
      refine ⟨p.1.next_bit, ?_, ?_⟩
      · simp only [sigStep, get_bit, hl]
        rw [alookup_append, hl]
        simp [alookup]
      · simp only [sigStep, get_bit, hl]
        exact lor_absorb_self _ _

/-- `sigStep` preserves assigned-and-absorbed facts. -/
theorem sigStep_preserves_absorbed {p : ComponentRegistry × Nat} {u : CType}
    {b : Nat} (t : CType)
    (hl : alookup u p.1.component_bits = some b) (hab : b ||| p.2 = p.2) :
    alookup u ((sigStep p t).1).component_bits = some b
      ∧ b ||| (sigStep p t).2 = (sigStep p t).2 := by
  cases ht : alookup t p.1.component_bits with
  | some bt =>
      refine ⟨by simp only [sigStep, get_bit, ht]; exact hl, ?_⟩
      simp only [sigStep, get_bit, ht]
      exact lor_absorb hab _
  | none =>
      refine ⟨?_, ?_⟩
      · simp only [sigStep, get_bit, ht]
        rw [alookup_append, hl]
      · simp only [sigStep, get_bit, ht]
        exact lor_absorb hab _

theorem sigFold_preserves_absorbed {u : CType} {b : Nat} :
    ∀ (l : List CType) (p : ComponentRegistry × Nat),
      alookup u p.1.component_bits = some b → b ||| p.2 = p.2 →
      alookup u ((sigFold p l).1).component_bits = some b
        ∧ b ||| (sigFold p l).2 = (sigFold p l).2 := by
  intro l
  induction l with
  | nil => intro p h1 h2; exact ⟨h1, h2⟩
  | cons t ts ih =>
      intro p h1 h2
      rw [sigFold_cons_step]
      obtain ⟨h1', h2'⟩ := sigStep_preserves_absorbed t h1 h2
      exact ih _ h1' h2'

/-- Every processed type ends up assigned with its bit absorbed. -/
theorem sigFold_assigns {t : CType} :
    ∀ (l : List CType) (p : ComponentRegistry × Nat), t ∈ l →
      ∃ b, alookup t ((sigFold p l).1).component_bits = some b
        ∧ b ||| (sigFold p l).2 = (sigFold p l).2 := by
  intro l
  induction l with
  | nil => intro p h; simp at h
  | cons u ts ih =>
      intro p hmem
      rw [sigFold_cons_step]
      rcases List.mem_cons.mp hmem with rfl | hmem'
      · obtain ⟨b, h1, h2⟩ := sigStep_self_absorbed p t
        exact ⟨b, (sigFold_preserves_absorbed ts _ h1 h2).1,
          (sigFold_preserves_absorbed ts _ h1 h2).2⟩
      · exact ih _ hmem'

/-- Processing a type whose bit is already absorbed is a no-op. -/
theorem sigStep_absorbed_eq {p : ComponentRegistry × Nat} {t : CType} {b : Nat}
    (hl : alookup t p.1.component_bits = some b) (hab : b ||| p.2 = p.2) :
    sigStep p t = p := by
  have hp : p.2 ||| b = p.2 := by rw [Nat.lor_comm]; exact hab
  simp only [sigStep, get_bit, hl, hp]

/-- Duplicates of an absorbed type can be filtered out of the loop. -/
theorem sigFold_filter_dup {t : CType} {b : Nat} :
    ∀ (l : List CType) (p : ComponentRegistry × Nat),
      alookup t p.1.component_bits = some b → b ||| p.2 = p.2 →
      sigFold p l = sigFold p (l.filter (fun u => u ≠ t)) := by
  intro l
  induction l with
  | nil => intro p _ _; rfl
  | cons u ts ih =>
      intro p h1 h2
      by_cases hu : u = t
      · subst hu
        rw [sigFold_cons_step, sigStep_absorbed_eq h1 h2,
          List.filter_cons_of_neg (by simp)]
        exact ih p h1 h2
      · rw [List.filter_cons_of_pos (by simp [hu]), sigFold_cons_step,
          sigFold_cons_step]
        obtain ⟨h1', h2'⟩ := sigStep_preserves_absorbed u h1 h2
        exact ih _ h1' h2'

/-- First-occurrence duplicate elimination. -/
def dedupF : List CType → List CType
  | [] => []
  | t :: l => t :: dedupF (l.filter (fun u => u ≠ t))
termination_by l => l.length
decreasing_by
  simp only [List.length_cons]
  exact Nat.lt_succ_of_le (List.length_filter_le _ _)

theorem dedupF_mem :
    ∀ (n : Nat) (l : List CType), l.length ≤ n →
      ∀ u, u ∈ dedupF l ↔ u ∈ l := by
  intro n
  induction n with
  | zero =>
      intro l hl u
      rw [List.length_eq_zero.mp (Nat.le_zero.mp hl)]
      simp [dedupF]
  | succ n ih =>
      intro l hl u
      cases l with
      | nil => simp [dedupF]
      | cons t ts =>
          rw [dedupF]
          simp only [List.mem_cons]
          rw [ih (ts.filter (fun u => u ≠ t))
            (le_trans (List.length_filter_le _ _) (Nat.succ_le_succ_iff.mp hl)) u]
          simp only [List.mem_filter, ne_eq, decide_not, Bool.not_eq_eq_eq_not,
            Bool.not_true, decide_eq_false_iff_not]
          by_cases hu : u = t
          · simp [hu]
          · simp [hu]

theorem dedupF_nodup :
    ∀ (n : Nat) (l : List CType), l.length ≤ n → (dedupF l).Nodup := by
  intro n
  induction n with
  | zero =>
      intro l hl
      rw [List.length_eq_zero.mp (Nat.le_zero.mp hl)]
      rw [dedupF]
      exact List.nodup_nil
  | succ n ih =>
      intro l hl
      cases l with
      | nil => rw [dedupF]; exact List.nodup_nil
      | cons t ts =>
          rw [dedupF]
          have hlen : (ts.filter (fun u => u ≠ t)).length ≤ n :=
            le_trans (List.length_filter_le _ _) (Nat.succ_le_succ_iff.mp hl)
          refine List.nodup_cons.mpr ⟨?_, ih _ hlen⟩
          intro hmem
          have := (dedupF_mem n _ hlen t).mp hmem
          simp [List.mem_filter] at this

theorem sigFold_dedupF :
    ∀ (n : Nat) (l : List CType), l.length ≤ n →
      ∀ p, sigFold p l = sigFold p (dedupF l) := by
  intro n
  induction n with
  | zero =>
      intro l hl p
      rw [List.length_eq_zero.mp (Nat.le_zero.mp hl)]
      rw [dedupF]
  | succ n ih =>
      intro l hl p
      cases l with
      | nil => rw [dedupF]
      | cons t ts =>
          rw [dedupF, sigFold_cons_step, sigFold_cons_step]
          obtain ⟨b, h1, h2⟩ := sigStep_self_absorbed p t
          rw [sigFold_filter_dup ts (sigStep p t) h1 h2]
          exact ih _ (le_trans (List.length_filter_le _ _)
            (Nat.succ_le_succ_iff.mp hl)) _

/-- Accumulator factoring: the signature accumulator only ever gets
OR-ed into the result, and does not influence registry evolution. -/
theorem sigFold_acc :
    ∀ (ts : List CType) (q : ComponentRegistry) (s : Nat),
      (sigFold (q, s) ts).1 = (sigFold (q, 0) ts).1
        ∧ (sigFold (q, s) ts).2 = s ||| (sigFold (q, 0) ts).2 := by
  intro ts
  induction ts with
  | nil => intro q s; exact ⟨rfl, by simp [sigFold]⟩
  | cons t ts ih =>
      intro q s
      rw [sigFold_cons_step, sigFold_cons_step]
      simp only [sigStep]
      obtain ⟨ih1, ih2⟩ := ih (get_bit q t).1 (s ||| (get_bit q t).2)
      obtain ⟨ih1', ih2'⟩ := ih (get_bit q t).1 ((0 : Nat) ||| (get_bit q t).2)
      refine ⟨ih1.trans ih1'.symm, ?_⟩
      rw [ih2, ih2', Nat.lor_assoc]
      simp

end ECS

namespace ECS

theorem sigFold_mem_invariant (r : ComponentRegistry) {ts us : List CType}
    (hmem : ∀ t, t ∈ ts ↔ t ∈ us) :
    (sigFold (r, 0) ts).2 = (sigFold (r, 0) us).2 := by
  rw [sigFold_dedupF ts.length ts le_rfl, sigFold_dedupF us.length us le_rfl]
  have hperm : (dedupF ts).Perm (dedupF us) := by
    rw [List.perm_ext_iff_of_nodup (dedupF_nodup ts.length ts le_rfl)
      (dedupF_nodup us.length us le_rfl)]
    intro u
    rw [dedupF_mem ts.length ts le_rfl, dedupF_mem us.length us le_rfl]
    exact hmem u
  exact (sigFold_perm hperm (RegEquiv.refl (r, 0))).1

/-! ## C9 — registry bit assignment and signature algebra -/

/-- C9: in a fresh registry the first type used gets bit 1 and the second
bit 2, `compute_signature([A,B]) = compute_signature([B,A]) = 3`,
`compute_signature` OR-combines `get_bit` over its argument, and the
computed signature is invariant under permutation and duplicate
elimination (any membership-equal lists) of the collection. -/
theorem c9_signature :
    (∀ A B : CType, A ≠ B →
      (get_bit ComponentRegistry.init A).2 = 1
      ∧ (get_bit (get_bit ComponentRegistry.init A).1 B).2 = 2
      ∧ (compute_signature ComponentRegistry.init [A, B]).2 = 3
      ∧ (compute_signature ComponentRegistry.init [B, A]).2 = 3)
    ∧ (∀ (r : ComponentRegistry) (t : CType) (ts : List CType),
        (compute_signature r (t :: ts)).2
          = (get_bit r t).2 ||| (compute_signature (get_bit r t).1 ts).2)
    ∧ (∀ (r : ComponentRegistry) (ts us : List CType),
        (∀ t, t ∈ ts ↔ t ∈ us) →
        (compute_signature r ts).2 = (compute_signature r us).2) := by
  refine ⟨?_, ?_, ?_⟩
  · intro A B hAB
    have hBA : ¬ B = A := fun h => hAB h.symm
    have hAB' : ¬ A = B := hAB
    refine ⟨?_, ?_, ?_, ?_⟩
    · simp [get_bit, ComponentRegistry.init, alookup]
    · simp [get_bit, ComponentRegistry.init, alookup, hAB']
    · simp [compute_signature, sigFold, get_bit, ComponentRegistry.init,
        alookup, hAB', hBA]
    · simp [compute_signature, sigFold, get_bit, ComponentRegistry.init,
        alookup, hAB', hBA]
  · intro r t ts
    show (sigFold (r, 0) (t :: ts)).2 = _
    rw [sigFold_cons_step]
    simp only [sigStep]
    rw [(sigFold_acc ts (get_bit r t).1 ((0 : Nat) ||| (get_bit r t).2)).2]
    simp only [compute_signature]
    simp [Nat.lor_assoc]
  · intro r ts us hmem
    exact sigFold_mem_invariant r hmem

/-- Witness for `c9_signature` at two concrete distinct types and a
duplicate-and-permutation pair of lists. -/
theorem c9_signature_witness :
    (get_bit ComponentRegistry.init ⟨0, 1⟩).2 = 1
    ∧ (get_bit (get_bit ComponentRegistry.init ⟨0, 1⟩).1 ⟨1, 1⟩).2 = 2
    ∧ (compute_signature ComponentRegistry.init [⟨0, 1⟩, ⟨1, 1⟩]).2 = 3
    ∧ (compute_signature ComponentRegistry.init [⟨1, 1⟩, ⟨0, 1⟩]).2 = 3
    ∧ (compute_signature ComponentRegistry.init [⟨0, 1⟩, ⟨1, 1⟩, ⟨0, 1⟩]).2
        = (compute_signature ComponentRegistry.init [⟨1, 1⟩, ⟨0, 1⟩]).2 :=
  ⟨(c9_signature.1 ⟨0, 1⟩ ⟨1, 1⟩ (by decide)).1,
   (c9_signature.1 ⟨0, 1⟩ ⟨1, 1⟩ (by decide)).2.1,
   (c9_signature.1 ⟨0, 1⟩ ⟨1, 1⟩ (by decide)).2.2.1,
   (c9_signature.1 ⟨0, 1⟩ ⟨1, 1⟩ (by decide)).2.2.2,
   c9_signature.2.2 ComponentRegistry.init [⟨0, 1⟩, ⟨1, 1⟩, ⟨0, 1⟩]
     [⟨1, 1⟩, ⟨0, 1⟩] (by intro t; simp [List.mem_cons]; tauto)⟩

end ECS

namespace ECS

/-! ## Event bus (core/event.py)

Handlers are identified by numbers; an abstract effect function `eff`
says which events a handler publishes asynchronously when invoked (the
only handler side effect visible to the bus state).  `process_async`
returns the new bus state and the delivery log, in dispatch order. -/

/-- An event: its dynamic type tag and a payload. -/
structure Event where
  etype : Nat
  val : Int
deriving DecidableEq, Repr

structure EventBus where
  subscribers : List (Nat × List Nat)
  current_async_queue : List Event
  next_async_queue : List Event
deriving DecidableEq, Repr

def EventBus.init : EventBus :=
  { subscribers := [], current_async_queue := [], next_async_queue := [] }

/-- `self._subscribers.get(event_type, [])`. -/
def subsOf (subs : List (Nat × List Nat)) (t : Nat) : List Nat :=
  (alookup t subs).getD []

/-- `EventBus.subscribe`: append the handler to the type's list. -/
def subscribe (b : EventBus) (t : Nat) (h : Nat) : EventBus :=
  { b with subscribers := aset t (subsOf b.subscribers t ++ [h]) b.subscribers }

/-- `EventBus.publish_async`: append to the next queue. -/
def publish_async (b : EventBus) (e : Event) : EventBus :=
  { b with next_async_queue := b.next_async_queue ++ [e] }

/-- `EventBus.process_async`: swap the queues (`current := next`,
`next := []`), dispatch every event of the swapped queue to the
subscribers of its type in subscription order — any events the handlers
publish asynchronously land in the fresh next queue — then clear the
current queue. -/
def process_async (eff : Nat → Event → List Event) (b : EventBus) :
    EventBus × List (Nat × Event) :=
  let step := b.next_async_queue.foldl
    (fun (acc : List Event × List (Nat × Event)) e =>
      let hs := subsOf b.subscribers e.etype
      (acc.1 ++ hs.flatMap (fun h => eff h e),
       acc.2 ++ hs.map (fun h => (h, e))))
    ([], [])
  ({ b with current_async_queue := [], next_async_queue := step.1 }, step.2)

theorem process_async_foldl (eff : Nat → Event → List Event)
    (subs : List (Nat × List Nat)) :
    ∀ (cur : List Event) (a1 : List Event) (a2 : List (Nat × Event)),
      cur.foldl
        (fun (acc : List Event × List (Nat × Event)) e =>
          let hs := subsOf subs e.etype
          (acc.1 ++ hs.flatMap (fun h => eff h e),
           acc.2 ++ hs.map (fun h => (h, e))))
        (a1, a2)
      = (a1 ++ cur.flatMap (fun e => (subsOf subs e.etype).flatMap (fun h => eff h e)),
         a2 ++ cur.flatMap (fun e => (subsOf subs e.etype).map (fun h => (h, e)))) := by
  intro cur
  induction cur with
  | nil => intro a1 a2; simp
  | cons e es ih =>
      intro a1 a2
      simp only [List.foldl_cons, List.flatMap_cons]
      rw [ih]
      simp [List.append_assoc]

/-- The full behavior of one drain. -/
theorem process_async_spec (eff : Nat → Event → List Event) (b : EventBus) :
    process_async eff b
      = ({ b with
            current_async_queue := []
            next_async_queue := b.next_async_queue.flatMap
              (fun e => (subsOf b.subscribers e.etype).flatMap (fun h => eff h e)) },
         b.next_async_queue.flatMap
           (fun e => (subsOf b.subscribers e.etype).map (fun h => (h, e)))) := by
  unfold process_async
  rw [process_async_foldl]
  simp

theorem count_deliveries (subs : List (Nat × List Nat)) (h0 : Nat) (e0 : Event) :
    ∀ (pending : List Event),
      (pending.flatMap (fun e => (subsOf subs e.etype).map (fun h => (h, e)))).count (h0, e0)
        = pending.count e0 * ((subsOf subs e0.etype).count h0) := by
  intro pending
  induction pending with
  | nil => simp
  | cons e es ih =>
      rw [List.flatMap_cons, List.count_append, ih]
      by_cases he : e = e0
      · subst he
        have hcm : ∀ ls : List Nat,
            (List.map (fun h => (h, e)) ls).count (h0, e) = ls.count h0 := by
          intro ls
          induction ls with
          | nil => simp
          | cons a as ihh =>
              simp only [List.map_cons]
              by_cases ha : a = h0
              · subst ha
                rw [List.count_cons_self, List.count_cons_self, ihh]
              · rw [List.count_cons_of_ne (fun hp => ha (congrArg Prod.fst hp).symm),
                  List.count_cons_of_ne (fun hp => ha hp.symm), ihh]
        rw [hcm, List.count_cons_self, Nat.succ_mul]
        omega
      · have hzero : (List.map (fun h => (h, e)) (subsOf subs e.etype)).count (h0, e0) = 0 := by
          rw [List.count_eq_zero]
          intro hmem
          obtain ⟨h, -, hpair⟩ := List.mem_map.mp hmem
          exact he (congrArg Prod.snd hpair)
        rw [hzero, List.count_cons_of_ne (fun h => he h.symm)]
        omega

end ECS

namespace ECS

/-! ## C4 — asynchronous delivery with double buffering -/

/-- C4: draining after `publish_async` of `e1 … en` (the pending next
queue) delivers each `ei` to each handler subscribed to its type exactly
once, in FIFO publish order (the log is exactly the queue flat-mapped
over the subscriber lists); events the handlers publish during the drain
are buffered into the next queue and delivered only by the subsequent
drain; and with silent handlers a second drain with no intervening
publishes delivers nothing. -/
theorem c4_event_bus_drain (eff : Nat → Event → List Event)
    (subs : List (Nat × List Nat)) (cq pending : List Event) :
    (process_async eff ⟨subs, cq, pending⟩).2
        = pending.flatMap (fun e => (subsOf subs e.etype).map (fun h => (h, e)))
    ∧ (∀ h e, ((process_async eff ⟨subs, cq, pending⟩).2).count (h, e)
        = pending.count e * ((subsOf subs e.etype).count h))
    ∧ (process_async eff ⟨subs, cq, pending⟩).1
        = ⟨subs, [],
            pending.flatMap (fun e => (subsOf subs e.etype).flatMap (fun h => eff h e))⟩
    ∧ (process_async eff (process_async eff ⟨subs, cq, pending⟩).1).2
        = ((process_async eff ⟨subs, cq, pending⟩).1.next_async_queue).flatMap
            (fun e => (subsOf subs e.etype).map (fun h => (h, e)))
    ∧ (process_async (fun _ _ => [])
        (process_async (fun _ _ => []) ⟨subs, cq, pending⟩).1).2 = [] := by
  refine ⟨?_, ?_, ?_, ?_, ?_⟩
  · rw [process_async_spec]
  · intro h e
    rw [process_async_spec]
    exact count_deliveries subs h e pending
  · rw [process_async_spec]
  · rw [process_async_spec, process_async_spec]
  · rw [process_async_spec, process_async_spec]
    simp

end ECS

namespace ECS

/-! ## Systems and the scheduler (core/system.py, ecs/world.py)

The `System` record carries `priority` (compared only, modelled as an
integer), `enabled`, `name` and the optional `group` tag (per the spec's
§4.6 record; the packaged `core/system.py` lacks the `group` attribute
the scheduler reads, so that field is modelled from the spec).  `sid`
identifies the underlying object. -/

/-- Modelled from the spec: the §4.6 system record (`priority`,
`enabled`, `name`, optional `group`); the packaged `core/system.py`
omits the `group` attribute the scheduler reads, so that field follows
the spec's words. -/
structure System where
  sid : Nat
  priority : Int
  enabled : Bool
  name : String
  group : Option String
deriving DecidableEq, Repr

/-- The ordering used by `self.systems.sort(key=lambda s: s.priority)`. -/
def sysLe (a b : System) : Prop := a.priority ≤ b.priority

instance : DecidableRel sysLe := fun a b => Int.decLe a.priority b.priority

instance : IsTotal System sysLe := ⟨fun a b => Int.le_total a.priority b.priority⟩

instance : IsTrans System sysLe := ⟨fun _ _ _ h1 h2 => le_trans h1 h2⟩

/-- `World.register_system`: append, then stable-sort by priority.
(Python's `list.sort` is stable; `insertionSort` is the stable sort of
the library.) -/
def register_system (systems : List System) (s : System) : List System :=
  List.insertionSort sysLe (systems ++ [s])

/-- Register a list of systems in order, starting from no systems. -/
def registerAll (regs : List System) : List System :=
  regs.foldl register_system []

/-- The filter of `update_systems`:
`system.enabled and (group is None or system.group == group)`. -/
def shouldRun (g : Option String) (s : System) : Bool :=
  s.enabled && (match g with
    | none => true
    | some _ => s.group == g)

/-- The sequence of systems whose `update(world, dt)` is invoked by
`World.update_systems`, in invocation order. -/
def update_systems_run (systems : List System) (g : Option String) :
    List System :=
  systems.foldl (fun acc s => if shouldRun g s then acc ++ [s] else acc) []

theorem update_systems_run_eq (systems : List System) (g : Option String) :
    update_systems_run systems g = systems.filter (shouldRun g) := by
  have hgen : ∀ (l : List System) (acc : List System),
      l.foldl (fun acc s => if shouldRun g s then acc ++ [s] else acc) acc
        = acc ++ l.filter (shouldRun g) := by
    intro l
    induction l with
    | nil => intro acc; simp
    | cons s t ih =>
        intro acc
        by_cases hs : shouldRun g s
        · simp only [List.foldl_cons, if_pos hs, ih,
            List.filter_cons_of_pos hs, List.append_assoc, List.singleton_append]
        · simp only [List.foldl_cons, if_neg hs, ih, List.filter_cons_of_neg hs]
  exact hgen systems []

theorem orderedInsert_filter_tied (s : System) (p : System → Bool) :
    ∀ (l : List System),
      (∀ b ∈ l, p b = true → p s = true → sysLe s b) →
      (List.orderedInsert sysLe s l).filter p
        = if p s then s :: l.filter p else l.filter p := by
  intro l
  induction l with
  | nil =>
      intro _
      simp [List.orderedInsert, List.filter_cons]
  | cons b t ih =>
      intro hall
      rw [List.orderedInsert]
      by_cases hle : sysLe s b
      · rw [if_pos hle]
        by_cases hp : p s
        · rw [if_pos hp, List.filter_cons_of_pos hp]
        · rw [if_neg hp, List.filter_cons_of_neg hp]
      · rw [if_neg hle]
        have ih' := ih (fun c hc => hall c (List.mem_cons_of_mem b hc))
        by_cases hp : p s
        · have hb : p b = false := by
            by_contra hb'
            have hb2 : p b = true := by
              cases hpb : p b
              · exact absurd hpb hb'
              · rfl
            exact hle (hall b (List.mem_cons_self b t) hb2 hp)
          rw [if_pos hp] at ih'
          rw [if_pos hp, List.filter_cons_of_neg (by simp [hb]), ih',
            List.filter_cons_of_neg (by simp [hb])]
        · rw [if_neg hp] at ih'
          rw [if_neg hp, List.filter_cons, List.filter_cons, ih']

theorem insertionSort_filter_tied (p : System → Bool)
    (hp : ∀ a b, p a = true → p b = true → a.priority = b.priority) :
    ∀ l : List System,
      (List.insertionSort sysLe l).filter p = l.filter p := by
  intro l
  induction l with
  | nil => rfl
  | cons s t ih =>
      rw [List.insertionSort]
      rw [orderedInsert_filter_tied s p (List.insertionSort sysLe t)
        (fun b _ hb hs => le_of_eq (hp s b hs hb))]
      rw [ih, List.filter_cons]

theorem registerAll_go_perm :
    ∀ (regs acc : List System),
      (regs.foldl register_system acc).Perm (acc ++ regs) := by
  intro regs
  induction regs with
  | nil => intro acc; simp
  | cons s t ih =>
      intro acc
      simp only [List.foldl_cons]
      refine (ih (register_system acc s)).trans ?_
      have h1 : (register_system acc s).Perm (acc ++ [s]) :=
        List.perm_insertionSort sysLe (acc ++ [s])
      refine (h1.append_right t).trans ?_
      simp [List.append_assoc]

theorem registerAll_go_sorted :
    ∀ (regs acc : List System), List.Sorted sysLe acc →
      List.Sorted sysLe (regs.foldl register_system acc) := by
  intro regs
  induction regs with
  | nil => intro acc h; exact h
  | cons s t ih =>
      intro acc _
      simp only [List.foldl_cons]
      exact ih _ (List.sorted_insertionSort sysLe (acc ++ [s]))

theorem registerAll_go_filter (p : System → Bool)
    (hp : ∀ a b, p a = true → p b = true → a.priority = b.priority) :
    ∀ (regs acc : List System),
      (regs.foldl register_system acc).filter p
        = acc.filter p ++ regs.filter p := by
  intro regs
  induction regs with
  | nil => intro acc; simp
  | cons s t ih =>
      intro acc
      simp only [List.foldl_cons]
      rw [ih, register_system, insertionSort_filter_tied p hp,
        List.filter_append, List.filter_cons]
      cases hps : p s <;> simp [hps]

end ECS

namespace ECS

/-! ## C5 — scheduler ordering, enabled flag and group filter -/

/-- C5: after registering `regs` in order, `update_systems(dt, group)`
invokes exactly the systems that are enabled and (when a group is given)
whose group matches — each exactly once (the invocation sequence is a
permutation of the registration-order filter) — in ascending priority
order, with equal-priority systems invoked in their registration order
(for every priority `q`, the invoked systems of priority `q` appear
exactly as in the registration order). -/
theorem c5_update_systems_order (regs : List System) (g : Option String) :
    update_systems_run (registerAll regs) g
        = (registerAll regs).filter (shouldRun g)
    ∧ (update_systems_run (registerAll regs) g).Perm
        (regs.filter (shouldRun g))
    ∧ (update_systems_run (registerAll regs) g).Pairwise
        (fun a b => a.priority ≤ b.priority)
    ∧ ∀ q : Int, (update_systems_run (registerAll regs) g).filter
          (fun s => s.priority == q)
        = regs.filter (fun s => shouldRun g s && s.priority == q) := by
  have hrun : update_systems_run (registerAll regs) g
      = (registerAll regs).filter (shouldRun g) :=
    update_systems_run_eq (registerAll regs) g
  refine ⟨hrun, ?_, ?_, ?_⟩
  · rw [hrun]
    have hperm : (registerAll regs).Perm regs := by
      simpa using registerAll_go_perm regs []
    exact hperm.filter (shouldRun g)
  · rw [hrun]
    have hsorted : List.Sorted sysLe (registerAll regs) :=
      registerAll_go_sorted regs [] (List.sorted_nil)
    exact List.Pairwise.sublist (List.filter_sublist _) hsorted
  · intro q
    rw [hrun, List.filter_filter]
    have hp : ∀ a b : System, (a.priority == q && shouldRun g a) = true →
        (b.priority == q && shouldRun g b) = true → a.priority = b.priority := by
      intro a b ha hb
      simp only [Bool.and_eq_true, beq_iff_eq] at ha hb
      rw [ha.1, hb.1]
    have hflt := registerAll_go_filter
      (fun s => s.priority == q && shouldRun g s) hp regs []
    simp only [List.filter_nil, List.nil_append] at hflt
    unfold registerAll
    rw [hflt]
    congr 1
    funext s
    rw [Bool.and_comm]

end ECS

namespace ECS

/-! ## Archetypes and the World (ecs/world.py)

`entity_to_archetype` stores the archetype's signature: the Python dict
stores object references, but every reference it ever holds is the object
at `self.archetypes[signature]` (archetypes are created once per
signature and never deleted), so keying by signature is an exact
indirection.  Component instances are owned by the registry; an
archetype's per-type storage lists hold references to those instances,
modelled by the component type itself (one instance per type per world). -/

structure Archetype where
  signature : Nat
  entities : List Nat
  storage : List (CType × List CType)
  index_map : List (Nat × Nat)
deriving DecidableEq, Repr

def Archetype.init (signature : Nat) : Archetype :=
  { signature := signature, entities := [], storage := [], index_map := [] }

/-- `Archetype.add_entity`: append the entity, record its index, and for
each component type (in dict order) create the storage list if missing
and append the type's instance. -/
def Archetype.add_entity (a : Archetype) (e : Nat) (comps : List CType) :
    Archetype :=
  { a with
      entities := a.entities ++ [e]
      index_map := aset e a.entities.length a.index_map
      storage := comps.foldl
        (fun st t => aset t ((alookup t st).getD [] ++ [t]) st) a.storage }

/-- `Archetype.remove_entity`: swap-and-pop across `entities` and every
storage list in lockstep; the (ignored by all callers) removed data is
not returned. -/
def Archetype.remove_entity (a : Archetype) (e : Nat) : Archetype :=
  match alookup e a.index_map with
  | none => a
  | some index =>
      let last_index := a.entities.length - 1
      let a1 : Archetype :=
        if index = last_index then a
        else
          { a with
              entities := a.entities.set index (a.entities.getD last_index 0)
              index_map := aset (a.entities.getD last_index 0) index a.index_map
              storage := a.storage.map
                (fun p => (p.1, p.2.set index (p.2.getD last_index p.1))) }
      { a1 with
          entities := a1.entities.dropLast
          storage := a1.storage.map (fun p => (p.1, p.2.dropLast))
          index_map := aerase e a1.index_map }

/-- A query-cache entry: the cached result list and the world version it
was computed at. -/
structure QCacheVal where
  result : List (Nat × List (CType × CType))
  version : Nat
deriving DecidableEq, Repr

structure World where
  archetypes : List (Nat × Archetype)
  entity_to_archetype : List (Nat × Nat)
  entity_components : List (Nat × List CType)
  free_ids : List Nat
  next_entity_id : Nat
  num_entities : Int
  systems : List System
  query_cache : List (Nat × QCacheVal)
  world_version : Nat
  event_bus : EventBus
  component_registry : ComponentRegistry
deriving DecidableEq, Repr

def World.init : World :=
  { archetypes := []
    entity_to_archetype := []
    entity_components := []
    free_ids := []
    next_entity_id := 0
    num_entities := 0
    systems := []
    query_cache := []
    world_version := 0
    event_bus := EventBus.init
    component_registry := ComponentRegistry.init }

/-- `World._invalidate_query_cache`: clear the cache, bump the version. -/
def invalidate_query_cache (w : World) : World :=
  { w with query_cache := [], world_version := w.world_version + 1 }

/-- The default-constructed column for a component type. -/
def defaultInstance (t : CType) : Component :=
  Component.init t.dims (List.replicate t.dims (Val.num 0))

/-- `World.register_component` with no explicit instance: construct the
default instance on first registration, do nothing when already
registered. -/
def register_component (w : World) (t : CType) : World × Option String :=
  match alookup t w.component_registry.components with
  | some _ => (w, none)
  | none =>
      ({ w with component_registry :=
          { w.component_registry with
              components := aset t (defaultInstance t)
                w.component_registry.components } }, none)

/-- `World.get_component_instance`: the registered column, registering a
default one if necessary. -/
def get_component_instance (w : World) (t : CType) : World × Component :=
  match alookup t w.component_registry.components with
  | some c => (w, c)
  | none => ((register_component w t).1, defaultInstance t)

/-- Store a column instance back under its type (models in-place
mutation of the registry-owned instance). -/
def set_component (w : World) (t : CType) (c : Component) : World :=
  { w with component_registry :=
      { w.component_registry with
          components := aset t c w.component_registry.components } }

/-- `World._get_archetype`: create the archetype on demand, pre-filling
storage keys for every registered component type whose bit is in the
signature (`get_bit` may assign new bits as a side effect). -/
def get_archetype (w : World) (signature : Nat) : World × Nat :=
  match alookup signature w.archetypes with
  | some _ => (w, signature)
  | none =>
      let init := (akeys w.component_registry.components).foldl
        (fun (acc : ComponentRegistry × Archetype) t =>
          let rb := get_bit acc.1 t
          if signature &&& rb.2 ≠ 0 then
            (rb.1, { acc.2 with storage := aset t [] acc.2.storage })
          else (rb.1, acc.2))
        (w.component_registry, Archetype.init signature)
      ({ w with
          component_registry := init.1
          archetypes := aset signature init.2 w.archetypes }, signature)

/-- The `comp_instance.add(entity_id, init_val)` loop of `create_entity`,
stopping at (and propagating) the first raised exception. -/
def addColumns (eid : Nat) (initial : List (CType × List Val)) :
    World → List CType → World × Option String
  | w, [] => (w, none)
  | w, t :: ts =>
      let wc := get_component_instance w t
      let r := wc.2.add eid (alookup t initial)
      let w2 := set_component wc.1 t r.1
      match r.2 with
      | some msg => (w2, some msg)
      | none => addColumns eid initial w2 ts

/-- The `comp.remove(entity_id)` loop of `remove_entity` (never raises). -/
def removeColumns (eid : Nat) : World → List CType → World
  | w, [] => w
  | w, t :: ts =>
      let wc := get_component_instance w t
      removeColumns eid (set_component wc.1 t (wc.2.remove eid)) ts

/-- Everything `World.create_entity` does before the per-column adds:
resolve the instances (auto-registering, with dict-comprehension key
dedup), allocate the id (LIFO free list, else the counter), compute the
signature, fetch or create the archetype, insert into it, and record the
two per-entity maps.  Returns the world, the id and the deduplicated
type list. -/
def create_entity_pre (w : World) (components : List CType) :
    World × Nat × List CType :=
  let types := dedupF components
  let w1 := types.foldl (fun acc t => (get_component_instance acc t).1) w
  let alloc : World × Nat :=
    match w1.free_ids.getLast? with
    | some i => ({ w1 with free_ids := w1.free_ids.dropLast }, i)
    | none => ({ w1 with next_entity_id := w1.next_entity_id + 1 },
        w1.next_entity_id)
  let sig := compute_signature alloc.1.component_registry components
  let w3 := { alloc.1 with component_registry := sig.1 }
  let wa := get_archetype w3 sig.2
  let w5 := { wa.1 with
      archetypes := aset wa.2 (((alookup wa.2 wa.1.archetypes).getD
        (Archetype.init sig.2)).add_entity alloc.2 types) wa.1.archetypes }
  let w6 := { w5 with
      entity_to_archetype := aset alloc.2 wa.2 w5.entity_to_archetype
      entity_components := aset alloc.2 types w5.entity_components }
  (w6, alloc.2, types)

/-- `World.create_entity`.  Returns the world, the new id, and the
propagated exception if a column add raised (partial mutations stand). -/
def create_entity (w : World) (components : List CType)
    (initial : List (CType × List Val)) : World × Nat × Option String :=
  let pre := create_entity_pre w components
  let cols := addColumns pre.2.1 initial pre.1 pre.2.2
  match cols.2 with
  | some msg => (cols.1, pre.2.1, some msg)
  | none =>
      ({ invalidate_query_cache cols.1 with
          num_entities := cols.1.num_entities + 1 }, pre.2.1, none)

/-- `World.remove_entity`: warn-and-return on an unknown id; otherwise
pop the archetype reference, remove from the archetype, remove each of
the entity's columns, drop the maps, push the id on the free list and
invalidate the cache. -/
def remove_entity (w : World) (eid : Nat) : World × Option String :=
  match alookup eid w.entity_to_archetype with
  | none => (w, none)
  | some sigKey =>
      let w1 := { w with entity_to_archetype := aerase eid w.entity_to_archetype }
      let w2 := match alookup sigKey w1.archetypes with
        | none => w1
        | some a => { w1 with
            archetypes := aset sigKey (a.remove_entity eid) w1.archetypes }
      match alookup eid w2.entity_components with
      | none => (w2, some "KeyError")
      | some types =>
          let w3 := removeColumns eid w2 types
          let w4 := { w3 with
              entity_components := aerase eid w3.entity_components
              free_ids := w3.free_ids ++ [eid] }
          ({ invalidate_query_cache w4 with
              num_entities := w4.num_entities - 1 }, none)

/-- `World.add_component`. -/
def add_component (w : World) (eid : Nat) (t : CType)
    (initial : Option (List Val)) : World × Option String :=
  match alookup eid w.entity_components with
  | none => (w, some "ValueError: Entity does not exist.")
  | some current =>
      if t ∈ current then (w, some "ValueError: Entity already has this component.")
      else
        match alookup eid w.entity_to_archetype with
        | none => (w, some "KeyError")
        | some oldSig =>
            let w1 := match alookup oldSig w.archetypes with
              | none => w
              | some a => { w with
                  archetypes := aset oldSig (a.remove_entity eid) w.archetypes }
            let w2 := (get_component_instance w1 t).1
            let current2 := current ++ [t]
            let w3 := { w2 with
                entity_components := aset eid current2 w2.entity_components }
            let sig := compute_signature w3.component_registry current2
            let w4 := { w3 with component_registry := sig.1 }
            let wa := get_archetype w4 sig.2
            let w6 := { wa.1 with
                archetypes := aset wa.2 (((alookup wa.2 wa.1.archetypes).getD
                  (Archetype.init sig.2)).add_entity eid current2)
                  wa.1.archetypes }
            let w7 := { w6 with
                entity_to_archetype := aset eid wa.2 w6.entity_to_archetype }
            let wc := get_component_instance w7 t
            let r := wc.2.add eid initial
            let w9 := set_component wc.1 t r.1
            match r.2 with
            | some msg => (w9, some msg)
            | none => (invalidate_query_cache w9, none)

/-- `World.remove_component`: silent return when the entity lacks the
type; otherwise migrate archetypes and remove the column row. -/
def remove_component (w : World) (eid : Nat) (t : CType) :
    World × Option String :=
  match alookup eid w.entity_components with
  | none => (w, some "ValueError: Entity does not exist.")
  | some current =>
      if t ∉ current then (w, none)
      else
        match alookup eid w.entity_to_archetype with
        | none => (w, some "KeyError")
        | some oldSig =>
            let w1 := match alookup oldSig w.archetypes with
              | none => w
              | some a => { w with
                  archetypes := aset oldSig (a.remove_entity eid) w.archetypes }
            let current2 := current.erase t
            let w2 := { w1 with
                entity_components := aset eid current2 w1.entity_components }
            let sig := compute_signature w2.component_registry current2
            let w3 := { w2 with component_registry := sig.1 }
            let wa := get_archetype w3 sig.2
            let w5 := { wa.1 with
                archetypes := aset wa.2 (((alookup wa.2 wa.1.archetypes).getD
                  (Archetype.init sig.2)).add_entity eid current2)
                  wa.1.archetypes }
            let w6 := { w5 with
                entity_to_archetype := aset eid wa.2 w5.entity_to_archetype }
            let wc := get_component_instance w6 t
            let w7 := set_component wc.1 t (wc.2.remove eid)
            (invalidate_query_cache w7, none)

/-- `World.query`: compute the mask (assigning bits as needed), serve
from the cache when its stored version matches, else scan archetypes in
insertion order and cache the result under the current version. -/
def query (w : World) (required : List CType) :
    World × List (Nat × List (CType × CType)) :=
  let m := compute_signature w.component_registry required
  let w1 := { w with component_registry := m.1 }
  let scan : List (Nat × List (CType × CType)) :=
    w1.archetypes.foldl
      (fun acc p =>
        if p.2.signature &&& m.2 = m.2 then
          acc ++ (List.range p.2.entities.length).map
            (fun idx => (p.2.entities.getD idx 0,
              required.map (fun t => (t, ((alookup t p.2.storage).getD []).getD idx t))))
        else acc) []
  match alookup m.2 w1.query_cache with
  | some cached =>
      if cached.version = w1.world_version then (w1, cached.result)
      else
        ({ w1 with
            query_cache := aset m.2 ⟨scan, w1.world_version⟩ w1.query_cache },
          scan)
  | none =>
      ({ w1 with
          query_cache := aset m.2 ⟨scan, w1.world_version⟩ w1.query_cache },
        scan)

/-- The public World API as operations. -/
inductive WOp where
  | registerComponent (t : CType)
  | registerSystem (s : System)
  | createEntity (ts : List CType) (initial : List (CType × List Val))
  | removeEntity (e : Nat)
  | addComponent (e : Nat) (t : CType) (initial : Option (List Val))
  | removeComponent (e : Nat) (t : CType)
  | queryOp (ts : List CType)

def applyOp (w : World) : WOp → World × Option String
  | .registerComponent t => register_component w t
  | .registerSystem s => ({ w with systems := register_system w.systems s }, none)
  | .createEntity ts initial =>
      let r := create_entity w ts initial
      (r.1, r.2.2)
  | .removeEntity e => remove_entity w e
  | .addComponent e t initial => add_component w e t initial
  | .removeComponent e t => remove_component w e t
  | .queryOp ts => ((query w ts).1, none)

def runOps (ops : List WOp) : World :=
  ops.foldl (fun w op => (applyOp w op).1) World.init

end ECS

namespace ECS

/-! ## Dict lookup characterizations -/

section AssocLemmas3

variable {κ β : Type} [DecidableEq κ]

theorem alookup_aset (k u : κ) (v : β) (l : List (κ × β)) :
    alookup u (aset k v l) = if k = u then some v else alookup u l := by
  induction l with
  | nil => simp [aset, alookup]
  | cons hd tl ih =>
      obtain ⟨k', v'⟩ := hd
      by_cases hk : k' = k
      · subst hk
        by_cases hu : k' = u
        · simp [aset, alookup, hu]
        · simp [aset, alookup, hu]
      · by_cases hu : k' = u
        · subst hu
          have : ¬ k = k' := fun h => hk h.symm
          simp [aset, alookup, hk, this]
        · simp [aset, alookup, hk, hu, ih]

theorem alookup_aerase_ne {k u : κ} (hne : u ≠ k) (l : List (κ × β)) :
    alookup u (aerase k l) = alookup u l := by
  induction l with
  | nil => simp [aerase]
  | cons hd tl ih =>
      obtain ⟨k', v'⟩ := hd
      by_cases hk : k' = k
      · subst hk
        have : ¬ k' = u := fun h => hne (h.symm)
        simp [aerase, alookup, this]
      · by_cases hu : k' = u
        · subst hu
          simp [aerase, alookup, hk, hne]
        · simp [aerase, alookup, hk, hu, ih]

theorem alookup_aerase_self {k : κ} {l : List (κ × β)}
    (hnd : (akeys l).Nodup) : alookup k (aerase k l) = none :=
  alookup_eq_none.mpr (akeys_notMem_aerase hnd)

theorem akeys_aset_mem {k : κ} (v : β) {l : List (κ × β)}
    (h : k ∈ akeys l) : akeys (aset k v l) = akeys l := by
  induction l with
  | nil => simp [akeys] at h
  | cons hd tl ih =>
      obtain ⟨k', v'⟩ := hd
      by_cases hk : k' = k
      · simp [aset, akeys, hk]
      · have h' : k ∈ akeys tl := by
          rcases List.mem_cons.mp h with h1 | h1
          · exact absurd h1.symm hk
          · exact h1
        have htl := ih h'
        simp only [aset, if_neg hk, akeys, List.map_cons]
        simp only [akeys] at htl
        rw [htl]

theorem akeys_aset_nodup {k : κ} (v : β) {l : List (κ × β)}
    (hnd : (akeys l).Nodup) : (akeys (aset k v l)).Nodup := by
  by_cases h : k ∈ akeys l
  · rw [akeys_aset_mem v h]; exact hnd
  · rw [akeys_aset_fresh v (alookup_eq_none.mpr h)]
    simp only [List.nodup_append, List.nodup_singleton, true_and]
    refine ⟨hnd, ?_⟩
    intro x hx hxk
    rw [List.mem_singleton] at hxk
    subst hxk
    exact h hx

theorem akeys_aerase_nodup (k : κ) {l : List (κ × β)}
    (hnd : (akeys l).Nodup) : (akeys (aerase k l)).Nodup :=
  ((aerase_sublist k l).map Prod.fst).nodup hnd

end AssocLemmas3

/-! ## Frame lemmas: registry- and archetype-only steps -/

/-- The fields of the world that the C10/C3 claims speak about. -/
def SameCore (w w' : World) : Prop :=
  w'.free_ids = w.free_ids ∧ w'.next_entity_id = w.next_entity_id
  ∧ w'.entity_to_archetype = w.entity_to_archetype
  ∧ w'.entity_components = w.entity_components
  ∧ w'.world_version = w.world_version
  ∧ w'.query_cache = w.query_cache

theorem sameCore_refl (w : World) : SameCore w w :=
  ⟨rfl, rfl, rfl, rfl, rfl, rfl⟩

theorem sameCore_trans {a b c : World} (h1 : SameCore a b) (h2 : SameCore b c) :
    SameCore a c := by
  obtain ⟨x1, x2, x3, x4, x5, x6⟩ := h1
  obtain ⟨y1, y2, y3, y4, y5, y6⟩ := h2
  exact ⟨y1.trans x1, y2.trans x2, y3.trans x3, y4.trans x4, y5.trans x5,
    y6.trans x6⟩

theorem sameCore_register_component (w : World) (t : CType) :
    SameCore w (register_component w t).1 := by
  unfold register_component
  cases alookup t w.component_registry.components
  · exact ⟨rfl, rfl, rfl, rfl, rfl, rfl⟩
  · exact ⟨rfl, rfl, rfl, rfl, rfl, rfl⟩

theorem sameCore_gci (w : World) (t : CType) :
    SameCore w (get_component_instance w t).1 := by
  unfold get_component_instance
  cases alookup t w.component_registry.components
  · exact sameCore_register_component w t
  · exact sameCore_refl w

theorem sameCore_set_component (w : World) (t : CType) (c : Component) :
    SameCore w (set_component w t c) :=
  ⟨rfl, rfl, rfl, rfl, rfl, rfl⟩

theorem sameCore_get_archetype (w : World) (s : Nat) :
    SameCore w (get_archetype w s).1 := by
  unfold get_archetype
  cases alookup s w.archetypes
  · exact ⟨rfl, rfl, rfl, rfl, rfl, rfl⟩
  · exact ⟨rfl, rfl, rfl, rfl, rfl, rfl⟩

theorem sameCore_foldl_gci (ts : List CType) :
    ∀ w : World, SameCore w
      (ts.foldl (fun acc t => (get_component_instance acc t).1) w) := by
  induction ts with
  | nil => intro w; exact sameCore_refl w
  | cons t ts ih =>
      intro w
      exact sameCore_trans (sameCore_gci w t) (ih _)

theorem sameCore_addColumns (eid : Nat) (initial : List (CType × List Val)) :
    ∀ (ts : List CType) (w : World),
      SameCore w (addColumns eid initial w ts).1 := by
  intro ts
  induction ts with
  | nil => intro w; exact sameCore_refl w
  | cons t ts ih =>
      intro w
      dsimp only [addColumns]
      cases hr : ((get_component_instance w t).2.add eid (alookup t initial)).2
      · exact sameCore_trans (sameCore_trans (sameCore_gci w t)
          (sameCore_set_component _ t _)) (ih _)
      · exact sameCore_trans (sameCore_gci w t) (sameCore_set_component _ t _)

theorem sameCore_removeColumns (eid : Nat) :
    ∀ (ts : List CType) (w : World), SameCore w (removeColumns eid w ts) := by
  intro ts
  induction ts with
  | nil => intro w; exact sameCore_refl w
  | cons t ts ih =>
      intro w
      dsimp only [removeColumns]
      exact sameCore_trans (sameCore_trans (sameCore_gci w t) (sameCore_set_component _ t _)) (ih _)

end ECS

namespace ECS

theorem get_archetype_snd (w : World) (s : Nat) : (get_archetype w s).2 = s := by
  unfold get_archetype
  cases alookup s w.archetypes <;> rfl

theorem ga_free (w : World) (s : Nat) :
    (get_archetype w s).1.free_ids = w.free_ids := (sameCore_get_archetype w s).1

theorem ga_next (w : World) (s : Nat) :
    (get_archetype w s).1.next_entity_id = w.next_entity_id :=
  (sameCore_get_archetype w s).2.1

theorem ga_e2a (w : World) (s : Nat) :
    (get_archetype w s).1.entity_to_archetype = w.entity_to_archetype :=
  (sameCore_get_archetype w s).2.2.1

theorem ga_ecomp (w : World) (s : Nat) :
    (get_archetype w s).1.entity_components = w.entity_components :=
  (sameCore_get_archetype w s).2.2.2.1

theorem ga_ver (w : World) (s : Nat) :
    (get_archetype w s).1.world_version = w.world_version :=
  (sameCore_get_archetype w s).2.2.2.2.1

theorem ga_cache (w : World) (s : Nat) :
    (get_archetype w s).1.query_cache = w.query_cache :=
  (sameCore_get_archetype w s).2.2.2.2.2

theorem fgci_free (ts : List CType) (w : World) :
    (ts.foldl (fun acc t => (get_component_instance acc t).1) w).free_ids
      = w.free_ids := (sameCore_foldl_gci ts w).1

theorem fgci_next (ts : List CType) (w : World) :
    (ts.foldl (fun acc t => (get_component_instance acc t).1) w).next_entity_id
      = w.next_entity_id := (sameCore_foldl_gci ts w).2.1

theorem fgci_e2a (ts : List CType) (w : World) :
    (ts.foldl (fun acc t => (get_component_instance acc t).1) w).entity_to_archetype
      = w.entity_to_archetype := (sameCore_foldl_gci ts w).2.2.1

theorem fgci_ecomp (ts : List CType) (w : World) :
    (ts.foldl (fun acc t => (get_component_instance acc t).1) w).entity_components
      = w.entity_components := (sameCore_foldl_gci ts w).2.2.2.1

theorem fgci_ver (ts : List CType) (w : World) :
    (ts.foldl (fun acc t => (get_component_instance acc t).1) w).world_version
      = w.world_version := (sameCore_foldl_gci ts w).2.2.2.2.1

theorem fgci_cache (ts : List CType) (w : World) :
    (ts.foldl (fun acc t => (get_component_instance acc t).1) w).query_cache
      = w.query_cache := (sameCore_foldl_gci ts w).2.2.2.2.2

/-- Field-level description of `create_entity_pre`: the allocated id is
mapped in both per-entity maps (other entries untouched, key-uniqueness
preserved), the version and cache are untouched, and the id comes off
the end of the free list or from the counter. -/
theorem create_entity_pre_spec (w : World) (c : List CType) :
    (∀ u, u ≠ (create_entity_pre w c).2.1 →
        alookup u (create_entity_pre w c).1.entity_to_archetype
          = alookup u w.entity_to_archetype
        ∧ alookup u (create_entity_pre w c).1.entity_components
          = alookup u w.entity_components)
    ∧ (alookup (create_entity_pre w c).2.1
        (create_entity_pre w c).1.entity_to_archetype).isSome
    ∧ alookup (create_entity_pre w c).2.1
        (create_entity_pre w c).1.entity_components = some (dedupF c)
    ∧ ((akeys w.entity_to_archetype).Nodup →
        (akeys (create_entity_pre w c).1.entity_to_archetype).Nodup)
    ∧ ((akeys w.entity_components).Nodup →
        (akeys (create_entity_pre w c).1.entity_components).Nodup)
    ∧ (create_entity_pre w c).1.world_version = w.world_version
    ∧ (create_entity_pre w c).1.query_cache = w.query_cache
    ∧ ((w.free_ids.getLast? = some (create_entity_pre w c).2.1
          ∧ (create_entity_pre w c).1.free_ids = w.free_ids.dropLast
          ∧ (create_entity_pre w c).1.next_entity_id = w.next_entity_id)
        ∨ (w.free_ids.getLast? = none
          ∧ (create_entity_pre w c).2.1 = w.next_entity_id
          ∧ (create_entity_pre w c).1.free_ids = w.free_ids
          ∧ (create_entity_pre w c).1.next_entity_id = w.next_entity_id + 1)) := by
  simp only [create_entity_pre]
  cases hfl : ((dedupF c).foldl (fun acc t => (get_component_instance acc t).1)
      w).free_ids.getLast? with
  | some i =>
      dsimp only
      refine ⟨?_, ?_, ?_, ?_, ?_, ?_, ?_, Or.inl ⟨?_, ?_, ?_⟩⟩
      · intro u hu
        rw [alookup_aset, alookup_aset, if_neg (fun h => hu h.symm),
          if_neg (fun h => hu h.symm), ga_e2a, ga_ecomp]
        dsimp only
        rw [fgci_e2a, fgci_ecomp]
        exact ⟨rfl, rfl⟩
      · rw [alookup_aset, if_pos rfl]
        rfl
      · rw [alookup_aset, if_pos rfl]
      · intro hnd
        refine akeys_aset_nodup _ ?_
        rw [ga_e2a]
        dsimp only
        rw [fgci_e2a]
        exact hnd
      · intro hnd
        refine akeys_aset_nodup _ ?_
        rw [ga_ecomp]
        dsimp only
        rw [fgci_ecomp]
        exact hnd
      · rw [ga_ver]
        dsimp only
        rw [fgci_ver]
      · rw [ga_cache]
        dsimp only
        rw [fgci_cache]
      · rw [← fgci_free (dedupF c) w]
        exact hfl
      · rw [ga_free]
        dsimp only
        rw [fgci_free]
      · rw [ga_next]
        dsimp only
        rw [fgci_next]
  | none =>
      dsimp only
      refine ⟨?_, ?_, ?_, ?_, ?_, ?_, ?_, Or.inr ⟨?_, ?_, ?_, ?_⟩⟩
      · intro u hu
        rw [alookup_aset, alookup_aset, if_neg (fun h => hu h.symm),
          if_neg (fun h => hu h.symm), ga_e2a, ga_ecomp]
        dsimp only
        rw [fgci_e2a, fgci_ecomp]
        exact ⟨rfl, rfl⟩
      · rw [alookup_aset, if_pos rfl]
        rfl
      · rw [alookup_aset, if_pos rfl]
      · intro hnd
        refine akeys_aset_nodup _ ?_
        rw [ga_e2a]
        dsimp only
        rw [fgci_e2a]
        exact hnd
      · intro hnd
        refine akeys_aset_nodup _ ?_
        rw [ga_ecomp]
        dsimp only
        rw [fgci_ecomp]
        exact hnd
      · rw [ga_ver]
        dsimp only
        rw [fgci_ver]
      · rw [ga_cache]
        dsimp only
        rw [fgci_cache]
      · rw [← fgci_free (dedupF c) w]
        exact hfl
      · exact fgci_next (dedupF c) w
      · rw [ga_free]
        dsimp only
        rw [fgci_free]
      · rw [ga_next]
        dsimp only
        rw [fgci_next]

end ECS

namespace ECS

theorem gci_free (w : World) (t : CType) :
    (get_component_instance w t).1.free_ids = w.free_ids := (sameCore_gci w t).1

theorem gci_next (w : World) (t : CType) :
    (get_component_instance w t).1.next_entity_id = w.next_entity_id :=
  (sameCore_gci w t).2.1

theorem gci_e2a (w : World) (t : CType) :
    (get_component_instance w t).1.entity_to_archetype = w.entity_to_archetype :=
  (sameCore_gci w t).2.2.1

theorem gci_ecomp (w : World) (t : CType) :
    (get_component_instance w t).1.entity_components = w.entity_components :=
  (sameCore_gci w t).2.2.2.1

theorem gci_ver (w : World) (t : CType) :
    (get_component_instance w t).1.world_version = w.world_version :=
  (sameCore_gci w t).2.2.2.2.1

theorem gci_cache (w : World) (t : CType) :
    (get_component_instance w t).1.query_cache = w.query_cache :=
  (sameCore_gci w t).2.2.2.2.2

theorem addc_free (e : Nat) (ini : List (CType × List Val)) (ts : List CType)
    (w : World) : (addColumns e ini w ts).1.free_ids = w.free_ids :=
  (sameCore_addColumns e ini ts w).1

theorem addc_next (e : Nat) (ini : List (CType × List Val)) (ts : List CType)
    (w : World) : (addColumns e ini w ts).1.next_entity_id = w.next_entity_id :=
  (sameCore_addColumns e ini ts w).2.1

theorem addc_e2a (e : Nat) (ini : List (CType × List Val)) (ts : List CType)
    (w : World) :
    (addColumns e ini w ts).1.entity_to_archetype = w.entity_to_archetype :=
  (sameCore_addColumns e ini ts w).2.2.1

theorem addc_ecomp (e : Nat) (ini : List (CType × List Val)) (ts : List CType)
    (w : World) :
    (addColumns e ini w ts).1.entity_components = w.entity_components :=
  (sameCore_addColumns e ini ts w).2.2.2.1

theorem addc_ver (e : Nat) (ini : List (CType × List Val)) (ts : List CType)
    (w : World) : (addColumns e ini w ts).1.world_version = w.world_version :=
  (sameCore_addColumns e ini ts w).2.2.2.2.1

theorem addc_cache (e : Nat) (ini : List (CType × List Val)) (ts : List CType)
    (w : World) : (addColumns e ini w ts).1.query_cache = w.query_cache :=
  (sameCore_addColumns e ini ts w).2.2.2.2.2

theorem remc_free (e : Nat) (ts : List CType) (w : World) :
    (removeColumns e w ts).free_ids = w.free_ids :=
  (sameCore_removeColumns e ts w).1

theorem remc_next (e : Nat) (ts : List CType) (w : World) :
    (removeColumns e w ts).next_entity_id = w.next_entity_id :=
  (sameCore_removeColumns e ts w).2.1

theorem remc_e2a (e : Nat) (ts : List CType) (w : World) :
    (removeColumns e w ts).entity_to_archetype = w.entity_to_archetype :=
  (sameCore_removeColumns e ts w).2.2.1

theorem remc_ecomp (e : Nat) (ts : List CType) (w : World) :
    (removeColumns e w ts).entity_components = w.entity_components :=
  (sameCore_removeColumns e ts w).2.2.2.1

theorem remc_ver (e : Nat) (ts : List CType) (w : World) :
    (removeColumns e w ts).world_version = w.world_version :=
  (sameCore_removeColumns e ts w).2.2.2.2.1

theorem remc_cache (e : Nat) (ts : List CType) (w : World) :
    (removeColumns e w ts).query_cache = w.query_cache :=
  (sameCore_removeColumns e ts w).2.2.2.2.2

/-- `create_entity` relative to its prefix: the column-adding loop and
the conditional cache invalidation. -/
theorem create_entity_fields (w : World) (c : List CType)
    (initial : List (CType × List Val)) :
    (create_entity w c initial).2.1 = (create_entity_pre w c).2.1
    ∧ (create_entity w c initial).1.entity_to_archetype
        = (create_entity_pre w c).1.entity_to_archetype
    ∧ (create_entity w c initial).1.entity_components
        = (create_entity_pre w c).1.entity_components
    ∧ (create_entity w c initial).1.free_ids
        = (create_entity_pre w c).1.free_ids
    ∧ (create_entity w c initial).1.next_entity_id
        = (create_entity_pre w c).1.next_entity_id
    ∧ ((create_entity w c initial).2.2 = none →
        (create_entity w c initial).1.world_version = w.world_version + 1
        ∧ (create_entity w c initial).1.query_cache = [])
    ∧ ((create_entity w c initial).2.2 ≠ none →
        (create_entity w c initial).1.world_version = w.world_version
        ∧ (create_entity w c initial).1.query_cache = w.query_cache) := by
  have hver := (create_entity_pre_spec w c).2.2.2.2.2.1
  have hcache := (create_entity_pre_spec w c).2.2.2.2.2.2.1
  simp only [create_entity]
  cases hc : (addColumns (create_entity_pre w c).2.1 initial
      (create_entity_pre w c).1 (create_entity_pre w c).2.2).2 with
  | none =>
      dsimp only [invalidate_query_cache]
      refine ⟨rfl, ?_, ?_, ?_, ?_, ?_, ?_⟩
      · rw [addc_e2a]
      · rw [addc_ecomp]
      · rw [addc_free]
      · rw [addc_next]
      · intro
        rw [addc_ver, hver]
        exact ⟨rfl, rfl⟩
      · intro h
        exact absurd rfl h
  | some msg =>
      dsimp only
      refine ⟨rfl, ?_, ?_, ?_, ?_, ?_, ?_⟩
      · rw [addc_e2a]
      · rw [addc_ecomp]
      · rw [addc_free]
      · rw [addc_next]
      · intro h
        exact absurd h (by simp)
      · intro
        rw [addc_ver, addc_cache, hver, hcache]
        exact ⟨rfl, rfl⟩

/-- `remove_entity` on an unknown id only warns. -/
theorem remove_entity_unknown {w : World} {e : Nat}
    (h : alookup e w.entity_to_archetype = none) :
    remove_entity w e = (w, none) := by
  simp [remove_entity, h]


/-- `remove_entity` on a live entity with a components record: field-level
characterization of the successful path. -/
theorem remove_entity_spec {w : World} {e : Nat} {sig : Nat} {types : List CType}
    (h1 : alookup e w.entity_to_archetype = some sig)
    (h2 : alookup e w.entity_components = some types) :
    (remove_entity w e).2 = none
    ∧ (remove_entity w e).1.free_ids = w.free_ids ++ [e]
    ∧ (remove_entity w e).1.next_entity_id = w.next_entity_id
    ∧ (remove_entity w e).1.entity_to_archetype = aerase e w.entity_to_archetype
    ∧ (remove_entity w e).1.entity_components = aerase e w.entity_components
    ∧ (remove_entity w e).1.world_version = w.world_version + 1
    ∧ (remove_entity w e).1.query_cache = [] := by
  cases harch : alookup sig w.archetypes with
  | none =>
      simp [remove_entity, invalidate_query_cache, h1, harch, h2, remc_free,
        remc_next, remc_e2a, remc_ecomp, remc_ver]
  | some a =>
      simp [remove_entity, invalidate_query_cache, h1, harch, h2, remc_free,
        remc_next, remc_e2a, remc_ecomp, remc_ver]

end ECS

namespace ECS

/-- `add_component` when the entity exists and lacks the type: field-level
characterization covering both the success and the column-error outcome
(partial mutations stand on error). -/
theorem add_component_spec {w : World} {eid : Nat} {t : CType}
    {current : List CType} {oldSig : Nat} (initial : Option (List Val))
    (hc : alookup eid w.entity_components = some current)
    (hmem : t ∉ current)
    (ha : alookup eid w.entity_to_archetype = some oldSig) :
    (add_component w eid t initial).1.free_ids = w.free_ids
    ∧ (add_component w eid t initial).1.next_entity_id = w.next_entity_id
    ∧ (∃ s, (add_component w eid t initial).1.entity_to_archetype
        = aset eid s w.entity_to_archetype)
    ∧ (add_component w eid t initial).1.entity_components
        = aset eid (current ++ [t]) w.entity_components
    ∧ ((add_component w eid t initial).2 = none →
        (add_component w eid t initial).1.world_version = w.world_version + 1
        ∧ (add_component w eid t initial).1.query_cache = [])
    ∧ ((add_component w eid t initial).2 ≠ none →
        (add_component w eid t initial).1.world_version = w.world_version
        ∧ (add_component w eid t initial).1.query_cache = w.query_cache) := by
  simp only [add_component, hc, ha, if_neg hmem]
  cases harch : alookup oldSig w.archetypes <;>
    dsimp only <;>
    split <;>
    refine ⟨?_, ?_, ?_, ?_, ?_, ?_⟩ <;>
    simp only [invalidate_query_cache, set_component, gci_free, gci_next,
      gci_e2a, gci_ecomp, gci_ver, gci_cache, ga_free, ga_next, ga_e2a,
      ga_ecomp, ga_ver, ga_cache, ne_eq, not_true_eq_false, not_false_eq_true,
      forall_const, reduceCtorEq, false_implies, IsEmpty.forall_iff,
      and_self, imp_self] <;>
    first
      | trivial
      | exact ⟨_, rfl⟩

end ECS

namespace ECS

/-- `remove_component` when the entity exists but does not have the
type: the call silently returns with the world untouched. -/
theorem remove_component_absent {w : World} {eid : Nat} {t : CType}
    {current : List CType}
    (hc : alookup eid w.entity_components = some current)
    (hmem : t ∉ current) :
    remove_component w eid t = (w, none) := by
  simp only [remove_component, hc, if_pos hmem]

/-- `remove_component` when the entity exists and has the type:
field-level characterization of the (always successful) migration. -/
theorem remove_component_spec {w : World} {eid : Nat} {t : CType}
    {current : List CType} {oldSig : Nat}
    (hc : alookup eid w.entity_components = some current)
    (hmem : t ∈ current)
    (ha : alookup eid w.entity_to_archetype = some oldSig) :
    (remove_component w eid t).2 = none
    ∧ (remove_component w eid t).1.free_ids = w.free_ids
    ∧ (remove_component w eid t).1.next_entity_id = w.next_entity_id
    ∧ (∃ s, (remove_component w eid t).1.entity_to_archetype
        = aset eid s w.entity_to_archetype)
    ∧ (remove_component w eid t).1.entity_components
        = aset eid (current.erase t) w.entity_components
    ∧ (remove_component w eid t).1.world_version = w.world_version + 1
    ∧ (remove_component w eid t).1.query_cache = [] := by
  have hnn : ¬ t ∉ current := fun h => h hmem
  simp only [remove_component, hc, ha, if_neg hnn]
  cases harch : alookup oldSig w.archetypes <;>
    dsimp only <;>
    refine ⟨?_, ?_, ?_, ?_, ?_, ?_, ?_⟩ <;>
    simp only [invalidate_query_cache, set_component, gci_free, gci_next,
      gci_e2a, gci_ecomp, gci_ver, gci_cache, ga_free, ga_next, ga_e2a,
      ga_ecomp, ga_ver, ga_cache] <;>
    first
      | trivial
      | exact ⟨_, rfl⟩

end ECS

namespace ECS

/-- `query` leaves free list, counter and both per-entity maps alone. -/
theorem query_fields (w : World) (ts : List CType) :
    (query w ts).1.free_ids = w.free_ids
    ∧ (query w ts).1.next_entity_id = w.next_entity_id
    ∧ (query w ts).1.entity_to_archetype = w.entity_to_archetype
    ∧ (query w ts).1.entity_components = w.entity_components := by
  unfold query
  dsimp only
  cases alookup (compute_signature w.component_registry ts).2 w.query_cache with
  | none => exact ⟨rfl, rfl, rfl, rfl⟩
  | some cached =>
      dsimp only
      by_cases h : cached.version = w.world_version
      · rw [if_pos h]
        exact ⟨rfl, rfl, rfl, rfl⟩
      · rw [if_neg h]
        exact ⟨rfl, rfl, rfl, rfl⟩

theorem mem_of_getLast?_eq {l : List Nat} {a : Nat}
    (h : l.getLast? = some a) : a ∈ l := by
  have hne : l ≠ [] := by rintro rfl; simp at h
  rw [List.getLast?_eq_getLast l hne] at h
  obtain rfl : l.getLast hne = a := Option.some.inj h
  exact List.getLast_mem hne

theorem mem_dropLast_ne_getLast {l : List Nat} (hnd : l.Nodup) {a : Nat}
    (hl : l.getLast? = some a) {e : Nat} (he : e ∈ l.dropLast) : e ≠ a := by
  have hne : l ≠ [] := by rintro rfl; simp at hl
  have hsplit : l.dropLast ++ [l.getLast hne] = l :=
    List.dropLast_append_getLast hne
  have ha : l.getLast hne = a := by
    rw [List.getLast?_eq_getLast l hne] at hl
    exact Option.some.inj hl
  rw [← hsplit] at hnd
  have hdisj := List.disjoint_of_nodup_append hnd
  intro hea
  exact hdisj he (by simp [ha, hea])

/-- The world invariant behind C10: the free list is duplicate-free,
below the id counter and disjoint from the live entities; live ids are
below the counter; the two per-entity dicts have the same key set and
duplicate-free keys. -/
structure WInv (w : World) : Prop where
  free_nodup : w.free_ids.Nodup
  free_lt : ∀ e ∈ w.free_ids, e < w.next_entity_id
  free_not_live : ∀ e ∈ w.free_ids, alookup e w.entity_to_archetype = none
  live_lt : ∀ e, (alookup e w.entity_to_archetype).isSome →
    e < w.next_entity_id
  keys_iff : ∀ e, (alookup e w.entity_to_archetype).isSome
    ↔ (alookup e w.entity_components).isSome
  e2a_nodup : (akeys w.entity_to_archetype).Nodup
  ecomp_nodup : (akeys w.entity_components).Nodup

theorem WInv_of_core {w w' : World}
    (hf : w'.free_ids = w.free_ids)
    (hn : w'.next_entity_id = w.next_entity_id)
    (ha : w'.entity_to_archetype = w.entity_to_archetype)
    (hc : w'.entity_components = w.entity_components)
    (hw : WInv w) : WInv w' :=
  { free_nodup := by rw [hf]; exact hw.free_nodup
    free_lt := by rw [hf, hn]; exact hw.free_lt
    free_not_live := by rw [hf, ha]; exact hw.free_not_live
    live_lt := by rw [ha, hn]; exact hw.live_lt
    keys_iff := by rw [ha, hc]; exact hw.keys_iff
    e2a_nodup := by rw [ha]; exact hw.e2a_nodup
    ecomp_nodup := by rw [hc]; exact hw.ecomp_nodup }

theorem WInv_init : WInv World.init :=
  { free_nodup := List.nodup_nil
    free_lt := by intro e he; simp [World.init] at he
    free_not_live := by intro e he; simp [World.init] at he
    live_lt := by intro e he; simp [World.init, alookup] at he
    keys_iff := by intro e; simp [World.init, alookup]
    e2a_nodup := by simp [World.init, akeys]
    ecomp_nodup := by simp [World.init, akeys] }

end ECS

namespace ECS

theorem WInv_create_entity {w : World} (hw : WInv w) (ts : List CType)
    (initial : List (CType × List Val)) :
    WInv (create_entity w ts initial).1 := by
  obtain ⟨-, he2a, hecomp, hfree, hnext, -, -⟩ := create_entity_fields w ts initial
  obtain ⟨hothers, hsome, hcomp, hnd1, hnd2, -, -, hdisj⟩ :=
    create_entity_pre_spec w ts
  refine
    { free_nodup := ?_
      free_lt := ?_
      free_not_live := ?_
      live_lt := ?_
      keys_iff := ?_
      e2a_nodup := ?_
      ecomp_nodup := ?_ }
  · rw [hfree]
    rcases hdisj with ⟨-, hf, -⟩ | ⟨-, -, hf, -⟩
    · rw [hf]
      exact hw.free_nodup.sublist (List.dropLast_sublist _)
    · rw [hf]
      exact hw.free_nodup
  · intro e he
    rw [hfree] at he
    rw [hnext]
    rcases hdisj with ⟨-, hf, hn⟩ | ⟨-, -, hf, hn⟩
    · rw [hf] at he
      rw [hn]
      exact hw.free_lt e ((List.dropLast_sublist _).subset he)
    · rw [hf] at he
      rw [hn]
      exact Nat.lt_succ_of_lt (hw.free_lt e he)
  · intro e he
    rw [hfree] at he
    rw [he2a]
    rcases hdisj with ⟨hlast, hf, -⟩ | ⟨hlast, hid, hf, -⟩
    · rw [hf] at he
      have hne : e ≠ (create_entity_pre w ts).2.1 :=
        mem_dropLast_ne_getLast hw.free_nodup hlast he
      rw [(hothers e hne).1]
      exact hw.free_not_live e ((List.dropLast_sublist _).subset he)
    · rw [hf] at he
      have hne : e ≠ (create_entity_pre w ts).2.1 := by
        rw [hid]
        exact Nat.ne_of_lt (hw.free_lt e he)
      rw [(hothers e hne).1]
      exact hw.free_not_live e he
  · intro e he
    rw [he2a] at he
    rw [hnext]
    by_cases hne : e = (create_entity_pre w ts).2.1
    · rcases hdisj with ⟨hlast, -, hn⟩ | ⟨-, hid, -, hn⟩
      · rw [hn, hne]
        exact hw.free_lt _ (mem_of_getLast?_eq hlast)
      · rw [hn, hne, hid]
        exact Nat.lt_succ_self _
    · rw [(hothers e hne).1] at he
      have := hw.live_lt e he
      rcases hdisj with ⟨-, -, hn⟩ | ⟨-, -, -, hn⟩
      · rw [hn]; exact this
      · rw [hn]; exact Nat.lt_succ_of_lt this
  · intro e
    rw [he2a, hecomp]
    by_cases hne : e = (create_entity_pre w ts).2.1
    · subst hne
      exact iff_of_true hsome (by rw [hcomp]; rfl)
    · rw [(hothers e hne).1, (hothers e hne).2]
      exact hw.keys_iff e
  · rw [he2a]
    exact hnd1 hw.e2a_nodup
  · rw [hecomp]
    exact hnd2 hw.ecomp_nodup

theorem WInv_remove_entity {w : World} (hw : WInv w) (e : Nat) :
    WInv (remove_entity w e).1 := by
  cases h1 : alookup e w.entity_to_archetype with
  | none =>
      rw [remove_entity_unknown h1]
      exact hw
  | some sig =>
      have hs2 : (alookup e w.entity_components).isSome :=
        (hw.keys_iff e).mp (by rw [h1]; rfl)
      obtain ⟨types, h2⟩ := Option.isSome_iff_exists.mp hs2
      obtain ⟨-, hfree, hnext, he2a, hecomp, -, -⟩ := remove_entity_spec h1 h2
      have hnotmem : e ∉ w.free_ids := by
        intro hmem
        have := hw.free_not_live e hmem
        rw [h1] at this
        cases this
      refine
        { free_nodup := ?_
          free_lt := ?_
          free_not_live := ?_
          live_lt := ?_
          keys_iff := ?_
          e2a_nodup := ?_
          ecomp_nodup := ?_ }
      · rw [hfree]
        refine hw.free_nodup.append (List.nodup_singleton e) ?_
        intro x hx hxe
        rw [List.mem_singleton] at hxe
        subst hxe
        exact hnotmem hx
      · intro u hu
        rw [hfree] at hu
        rw [hnext]
        rcases List.mem_append.mp hu with hu | hu
        · exact hw.free_lt u hu
        · rw [List.mem_singleton] at hu
          subst hu
          exact hw.live_lt u (by rw [h1]; rfl)
      · intro u hu
        rw [hfree] at hu
        rw [he2a]
        by_cases hue : u = e
        · subst hue
          exact alookup_aerase_self hw.e2a_nodup
        · rw [alookup_aerase_ne hue]
          rcases List.mem_append.mp hu with hu | hu
          · exact hw.free_not_live u hu
          · rw [List.mem_singleton] at hu
            exact absurd hu hue
      · intro u hu
        rw [he2a] at hu
        rw [hnext]
        by_cases hue : u = e
        · subst hue
          rw [alookup_aerase_self hw.e2a_nodup] at hu
          cases hu
        · rw [alookup_aerase_ne hue] at hu
          exact hw.live_lt u hu
      · intro u
        rw [he2a, hecomp]
        by_cases hue : u = e
        · subst hue
          rw [alookup_aerase_self hw.e2a_nodup,
            alookup_aerase_self hw.ecomp_nodup]
          exact Iff.rfl
        · rw [alookup_aerase_ne hue, alookup_aerase_ne hue]
          exact hw.keys_iff u
      · rw [he2a]
        exact akeys_aerase_nodup e hw.e2a_nodup
      · rw [hecomp]
        exact akeys_aerase_nodup e hw.ecomp_nodup

end ECS

namespace ECS

/-- Common preservation argument for the two component-migration calls:
both maps get `aset` at a key live in both, nothing else moves. -/
theorem WInv_aset_live {w w' : World} (hw : WInv w) {e : Nat} {s : Nat}
    {l : List CType}
    (hfree : w'.free_ids = w.free_ids)
    (hnext : w'.next_entity_id = w.next_entity_id)
    (he2a : w'.entity_to_archetype = aset e s w.entity_to_archetype)
    (hecomp : w'.entity_components = aset e l w.entity_components)
    (hlive : (alookup e w.entity_to_archetype).isSome) : WInv w' := by
  refine
    { free_nodup := ?_
      free_lt := ?_
      free_not_live := ?_
      live_lt := ?_
      keys_iff := ?_
      e2a_nodup := ?_
      ecomp_nodup := ?_ }
  · rw [hfree]
    exact hw.free_nodup
  · intro u hu
    rw [hfree] at hu
    rw [hnext]
    exact hw.free_lt u hu
  · intro u hu
    rw [hfree] at hu
    rw [he2a, alookup_aset]
    have hne : ¬ e = u := by
      intro h
      subst h
      have := hw.free_not_live e hu
      rw [this] at hlive
      cases hlive
    rw [if_neg hne]
    exact hw.free_not_live u hu
  · intro u hu
    rw [he2a, alookup_aset] at hu
    rw [hnext]
    by_cases hne : e = u
    · subst hne
      exact hw.live_lt e hlive
    · rw [if_neg hne] at hu
      exact hw.live_lt u hu
  · intro u
    rw [he2a, hecomp, alookup_aset, alookup_aset]
    by_cases hne : e = u
    · rw [if_pos hne, if_pos hne]
      exact iff_of_true rfl rfl
    · rw [if_neg hne, if_neg hne]
      exact hw.keys_iff u
  · rw [he2a]
    exact akeys_aset_nodup _ hw.e2a_nodup
  · rw [hecomp]
    exact akeys_aset_nodup _ hw.ecomp_nodup

theorem WInv_add_component {w : World} (hw : WInv w) (e : Nat) (t : CType)
    (initial : Option (List Val)) : WInv (add_component w e t initial).1 := by
  cases hc : alookup e w.entity_components with
  | none =>
      have h : (add_component w e t initial).1 = w := by
        simp [add_component, hc]
      rw [h]
      exact hw
  | some cur =>
      by_cases hm : t ∈ cur
      · have h : (add_component w e t initial).1 = w := by
          simp [add_component, hc, if_pos hm]
        rw [h]
        exact hw
      · cases ha : alookup e w.entity_to_archetype with
        | none =>
            have h : (add_component w e t initial).1 = w := by
              simp [add_component, hc, if_neg hm, ha]
            rw [h]
            exact hw
        | some oldSig =>
            obtain ⟨hfree, hnext, ⟨s, he2a⟩, hecomp, -, -⟩ :=
              add_component_spec initial hc hm ha
            exact WInv_aset_live hw hfree hnext he2a hecomp (by rw [ha]; rfl)

theorem WInv_remove_component {w : World} (hw : WInv w) (e : Nat) (t : CType) :
    WInv (remove_component w e t).1 := by
  cases hc : alookup e w.entity_components with
  | none =>
      have h : (remove_component w e t).1 = w := by
        simp [remove_component, hc]
      rw [h]
      exact hw
  | some cur =>
      by_cases hm : t ∈ cur
      · cases ha : alookup e w.entity_to_archetype with
        | none =>
            have hnn : ¬ t ∉ cur := fun h => h hm
            have h : (remove_component w e t).1 = w := by
              simp [remove_component, hc, if_neg hnn, ha]
            rw [h]
            exact hw
        | some oldSig =>
            obtain ⟨-, hfree, hnext, ⟨s, he2a⟩, hecomp, -, -⟩ :=
              remove_component_spec hc hm ha
            exact WInv_aset_live hw hfree hnext he2a hecomp (by rw [ha]; rfl)
      · rw [remove_component_absent hc hm]
        exact hw

theorem WInv_applyOp {w : World} (hw : WInv w) (op : WOp) :
    WInv (applyOp w op).1 := by
  cases op with
  | registerComponent t =>
      obtain ⟨h1, h2, h3, h4, -, -⟩ := sameCore_register_component w t
      exact WInv_of_core h1 h2 h3 h4 hw
  | registerSystem s =>
      refine WInv_of_core ?_ ?_ ?_ ?_ hw <;> rfl
  | createEntity ts initial =>
      exact WInv_create_entity hw ts initial
  | removeEntity e => exact WInv_remove_entity hw e
  | addComponent e t initial => exact WInv_add_component hw e t initial
  | removeComponent e t => exact WInv_remove_component hw e t
  | queryOp ts =>
      obtain ⟨h1, h2, h3, h4⟩ := query_fields w ts
      exact WInv_of_core h1 h2 h3 h4 hw

theorem WInv_runOps (ops : List WOp) : WInv (runOps ops) := by
  suffices h : ∀ w, WInv w →
      WInv (ops.foldl (fun w op => (applyOp w op).1) w) from
    h World.init WInv_init
  induction ops with
  | nil => intro w hw; exact hw
  | cons op ops ih =>
      intro w hw
      exact ih _ (WInv_applyOp hw op)

end ECS

namespace ECS

/-- The situations C3 talks about: `create_entity`, `remove_entity` on
an existing entity, `add_component` of a type the entity lacks,
`remove_component` of a type the entity has. -/
def C3Pre (w : World) : WOp → Prop
  | .createEntity _ _ => True
  | .removeEntity e => (alookup e w.entity_to_archetype).isSome
  | .addComponent e t _ =>
      ∃ cur, alookup e w.entity_components = some cur ∧ t ∉ cur
  | .removeComponent e t =>
      ∃ cur, alookup e w.entity_components = some cur ∧ t ∈ cur
  | _ => False

/-- **C3**: every call to `create_entity`, to `remove_entity` on an
existing entity, to `add_component` adding a type the entity lacks, or
to `remove_component` removing a type the entity has, that returns
normally (no exception propagates) leaves `world_version` bumped by one
and `query_cache` empty at the moment it returns. -/
theorem c3_mutations_bump_version (w : World) (op : WOp)
    (hpre : C3Pre w op) (hok : (applyOp w op).2 = none) :
    (applyOp w op).1.world_version = w.world_version + 1
    ∧ (applyOp w op).1.query_cache = [] := by
  cases op with
  | registerComponent t => exact hpre.elim
  | registerSystem s => exact hpre.elim
  | queryOp ts => exact hpre.elim
  | createEntity ts initial =>
      have h := create_entity_fields w ts initial
      exact h.2.2.2.2.2.1 hok
  | removeEntity e =>
      obtain ⟨sig, h1⟩ := Option.isSome_iff_exists.mp hpre
      cases h2 : alookup e w.entity_components with
      | none =>
          exfalso
          cases harch : alookup sig w.archetypes <;>
            simp [applyOp, remove_entity, h1, harch, h2] at hok
      | some types =>
          have h := remove_entity_spec h1 h2
          exact ⟨h.2.2.2.2.2.1, h.2.2.2.2.2.2⟩
  | addComponent e t initial =>
      obtain ⟨cur, hc, hm⟩ := hpre
      cases ha : alookup e w.entity_to_archetype with
      | none =>
          exfalso
          simp [applyOp, add_component, hc, if_neg hm, ha] at hok
      | some oldSig =>
          have h := add_component_spec initial hc hm ha
          exact h.2.2.2.2.1 hok
  | removeComponent e t =>
      obtain ⟨cur, hc, hm⟩ := hpre
      cases ha : alookup e w.entity_to_archetype with
      | none =>
          exfalso
          have hnn : ¬ t ∉ cur := fun h => h hm
          simp [applyOp, remove_component, hc, if_neg hnn, ha] at hok
      | some oldSig =>
          have h := remove_component_spec hc hm ha
          exact ⟨h.2.2.2.2.2.1, h.2.2.2.2.2.2⟩

/-- A concrete world with one live entity (id 0) holding no
components. -/
def exWorld1 : World :=
  { World.init with
      entity_to_archetype := [(0, 0)]
      entity_components := [(0, [])]
      next_entity_id := 1
      num_entities := 1 }

theorem c3_mutations_bump_version_witness :
    C3Pre exWorld1 (WOp.addComponent 0 ⟨0, 1⟩ none)
    ∧ (applyOp exWorld1 (WOp.addComponent 0 ⟨0, 1⟩ none)).2 = none
    ∧ (applyOp exWorld1 (WOp.addComponent 0 ⟨0, 1⟩ none)).1.world_version
        = exWorld1.world_version + 1
    ∧ (applyOp exWorld1 (WOp.addComponent 0 ⟨0, 1⟩ none)).1.query_cache
        = [] := by
  have hpre : C3Pre exWorld1 (WOp.addComponent 0 ⟨0, 1⟩ none) :=
    ⟨[], rfl, by simp⟩
  have hok : (applyOp exWorld1 (WOp.addComponent 0 ⟨0, 1⟩ none)).2 = none := rfl
  have h := c3_mutations_bump_version exWorld1 _ hpre hok
  exact ⟨hpre, hok, h.1, h.2⟩

/-- **C7**: `remove_component(id, T)` for an entity the world knows and
a type it does not have returns silently and hands back the world
entirely unchanged (version, cache, archetype membership, columns). -/
theorem c7_remove_component_missing_type {w : World} {eid : Nat} {t : CType}
    {current : List CType}
    (hc : alookup eid w.entity_components = some current)
    (hmem : t ∉ current) :
    remove_component w eid t = (w, none) :=
  remove_component_absent hc hmem

theorem c7_remove_component_missing_type_witness :
    alookup 0 exWorld1.entity_components = some []
    ∧ (⟨0, 1⟩ : CType) ∉ ([] : List CType)
    ∧ remove_component exWorld1 0 ⟨0, 1⟩ = (exWorld1, none) :=
  ⟨rfl, by simp, c7_remove_component_missing_type rfl (by simp)⟩

/-- **C10**: in every world reachable through the public API the free
list is duplicate-free, bounded by `next_entity_id` and disjoint from
the live entities; removing the same id twice pushes it into `free_ids`
only once (the second call only warns and changes nothing). -/
theorem c10_free_list_integrity (ops : List WOp) :
    (runOps ops).free_ids.Nodup
    ∧ (∀ e ∈ (runOps ops).free_ids, e < (runOps ops).next_entity_id)
    ∧ (∀ e ∈ (runOps ops).free_ids,
        alookup e (runOps ops).entity_to_archetype = none)
    ∧ (∀ e, (alookup e (runOps ops).entity_to_archetype).isSome →
        remove_entity (remove_entity (runOps ops) e).1 e
            = ((remove_entity (runOps ops) e).1, none)
        ∧ List.count e
            (remove_entity (remove_entity (runOps ops) e).1 e).1.free_ids
            = 1) := by
  have hw := WInv_runOps ops
  refine ⟨hw.free_nodup, hw.free_lt, hw.free_not_live, ?_⟩
  intro e he
  obtain ⟨sig, h1⟩ := Option.isSome_iff_exists.mp he
  obtain ⟨types, h2⟩ :=
    Option.isSome_iff_exists.mp ((hw.keys_iff e).mp he)
  obtain ⟨-, hfree, -, he2a, -, -, -⟩ := remove_entity_spec h1 h2
  have hnone :
      alookup e (remove_entity (runOps ops) e).1.entity_to_archetype
        = none := by
    rw [he2a]
    exact alookup_aerase_self hw.e2a_nodup
  have hsecond := remove_entity_unknown hnone
  refine ⟨hsecond, ?_⟩
  rw [hsecond]
  dsimp only
  rw [hfree, List.count_append]
  have hnotmem : e ∉ (runOps ops).free_ids := by
    intro hmem
    have := hw.free_not_live e hmem
    rw [h1] at this
    cases this
  rw [List.count_eq_zero.mpr hnotmem]
  simp

theorem c10_free_list_integrity_witness :
    (alookup 0
      (runOps [WOp.createEntity [] []]).entity_to_archetype).isSome
    ∧ remove_entity
            (remove_entity (runOps [WOp.createEntity [] []]) 0).1 0
        = ((remove_entity (runOps [WOp.createEntity [] []]) 0).1, none)
    ∧ List.count 0
        (remove_entity
          (remove_entity (runOps [WOp.createEntity [] []]) 0).1 0).1.free_ids
        = 1 := by
  have hs : (alookup 0
      (runOps [WOp.createEntity [] []]).entity_to_archetype).isSome := by
    simp [runOps, applyOp, create_entity, create_entity_pre, dedupF,
      addColumns, invalidate_query_cache, World.init, get_archetype,
      compute_signature, alookup, aset, akeys, ComponentRegistry.init]
  have h := c10_free_list_integrity [WOp.createEntity [] []]
  exact ⟨hs, (h.2.2.2 0 hs).1, (h.2.2.2 0 hs).2⟩

end ECS
